import Mathlib

/-!
Verification development for the tinykv Raft core (`raft.go`).

The `Raft` state machine itself (message stepping, role transitions,
campaigning, commit computation) is translated directly from the Go source.
The log (`RaftLog`), per-peer `Progress` record and in-memory storage are not
part of the provided sources; they are modelled from the specification
(sections 3, 4.1, 4.2 and 6), as noted on each such definition.

Machine integers (`uint64`) are modelled as `Nat`; none of the verified
operations rely on wrap-around behaviour.  Go panics are modelled as the
`Fault` error of an `Except Fault` computation.  Go's `nil` node id `None`
is the literal `0`.
-/

namespace tinykv

/-- Possible values for `StateType` (the role of a node). -/
inductive StateType where
  | StateFollower
  | StateCandidate
  | StateLeader
deriving DecidableEq, Repr

/-- Possible values for `CampaignType`. -/
inductive CampaignType where
  | campaignElection
  | campaignTransfer
deriving DecidableEq, Repr

namespace pb

/-- Message types of `eraftpb`, restricted to the ones `raft.go` handles. -/
inductive MessageType where
  | MsgHup
  | MsgBeat
  | MsgPropose
  | MsgAppend
  | MsgAppendResponse
  | MsgRequestVote
  | MsgRequestVoteResponse
  | MsgSnapshot
  | MsgHeartbeat
  | MsgHeartbeatResponse
  | MsgTransferLeader
  | MsgTimeoutNow
  | MsgSnapStatus
deriving DecidableEq, Repr

/-- Entry types of `eraftpb`. -/
inductive EntryType where
  | EntryNormal
  | EntryConfChange
deriving DecidableEq, Repr

/-- A log entry.  `Data` is opaque to the core; a list of bytes. -/
structure Entry where
  EntryType : EntryType := .EntryNormal
  Term : Nat := 0
  Index : Nat := 0
  Data : List Nat := []
deriving DecidableEq, Repr

/-- Membership carried by a snapshot. -/
structure ConfState where
  Nodes : List Nat := []
deriving DecidableEq, Repr

/-- Snapshot metadata `(index, term, conf_state)`. -/
structure SnapshotMetadata where
  Index : Nat := 0
  Term : Nat := 0
  ConfState : ConfState := {}
deriving DecidableEq, Repr

/-- A snapshot; its payload data is irrelevant to the core. -/
structure Snapshot where
  Metadata : SnapshotMetadata := {}
deriving DecidableEq, Repr

/-- The message envelope of `eraftpb.Message`, with `Context` restricted to
the only value the core ever writes into it (a campaign type). -/
structure Message where
  MsgType : MessageType := .MsgHup
  To : Nat := 0
  From : Nat := 0
  Term : Nat := 0
  LogTerm : Nat := 0
  Index : Nat := 0
  Entries : List Entry := []
  Commit : Nat := 0
  Reject : Bool := false
  RejectHint : Nat := 0
  Snapshot : Option Snapshot := none
  Context : Option CampaignType := none
deriving DecidableEq, Repr

/-- Durable `(term, vote, commit)` triple. -/
structure HardState where
  Term : Nat := 0
  Vote : Nat := 0
  Commit : Nat := 0
deriving DecidableEq, Repr

/-- `IsEmptyHardState`: a hard state equal to the zero value. -/
def IsEmptyHardState (hs : HardState) : Bool :=
  hs == {}

end pb

/-- A Go panic of the core, as a typed error.  The two forbidden role
transitions get their own constructors so theorems can name them. -/
inductive Fault where
  | leaderToCandidate
  | followerToLeader
  | commitToOutOfRange
  | appendOutOfRange
  | conflictWithCommitted
  | emptyPropose
  | nilProgress
  | nilSnapshot
  | sliceFault
  | needNonEmptySnapshot
  | configInvalid
  | loadStateOutOfRange
deriving DecidableEq, Repr

/-- The one recoverable error `Step` returns to its caller. -/
inductive StepErr where
  | proposalDropped
deriving DecidableEq, Repr

/-- Modelled from the spec: the layered log of §3/§4.1 collapsed to a single
in-memory view (the persisted/unstable split only matters for the
Ready/advance cycle, which no claim touches).  The entry at list position
`k` is the log entry at index `snapIndex + 1 + k`; `snapIndex`/`snapTerm`
identify the compacted prefix. -/
structure RaftLog where
  snapIndex : Nat := 0
  snapTerm : Nat := 0
  entries : List pb.Entry := []
  committed : Nat := 0
  applied : Nat := 0
deriving DecidableEq, Repr

namespace RaftLog

/-- Modelled from the spec: `first_index = snapshot.index + 1` (§3). -/
def firstIndex (l : RaftLog) : Nat := l.snapIndex + 1

/-- Modelled from the spec: `last_index()` (§4.1). -/
def LastIndex (l : RaftLog) : Nat := l.snapIndex + l.entries.length

/-- Modelled from the spec: `term(i)`, erroring below `first_index - 1`
(compacted) and above `last_index` (§4.1). -/
def Term (l : RaftLog) (i : Nat) : Option Nat :=
  if i = l.snapIndex then some l.snapTerm
  else if l.snapIndex < i ∧ i ≤ l.LastIndex then
    some ((l.entries.getD (i - l.snapIndex - 1) {}).Term)
  else none

/-- Term of `i` with lookup errors collapsed to `0`
(`zeroTermOnErrCompacted` in the source). -/
def termOrZero (l : RaftLog) (i : Nat) : Nat := (l.Term i).getD 0

/-- `matchTerm`: does index `i` hold term `t`? -/
def matchTerm (l : RaftLog) (i t : Nat) : Bool := l.Term i == some t

/-- Term of the last entry. -/
def lastTerm (l : RaftLog) : Nat := l.termOrZero l.LastIndex

/-- Modelled from the spec: `is_up_to_date(last_idx, last_term)` — true iff
`last_term > self.last_term` or (`last_term == self.last_term` and
`last_idx ≥ self.last_index`) (§4.1). -/
def isUpToDate (l : RaftLog) (lasti term : Nat) : Bool :=
  l.lastTerm < term ∨ (term = l.lastTerm ∧ l.LastIndex ≤ lasti)

/-- Modelled from the spec: `commit_to(c)` — panics if `c > last_index`;
never moves `committed` backwards (§4.1, §7). -/
def commitTo (l : RaftLog) (c : Nat) : Except Fault RaftLog :=
  if l.committed < c then
    if l.LastIndex < c then .error .commitToOutOfRange
    else .ok { l with committed := c }
  else .ok l

/-- Modelled from the spec: `maybe_commit(candidate_index, current_term)` —
advances `committed` iff `candidate_index > committed` and
`term(candidate_index) == current_term` (§4.1). -/
def maybeCommit (l : RaftLog) (maxIndex term : Nat) : Except Fault (Bool × RaftLog) :=
  if l.committed < maxIndex ∧ l.termOrZero maxIndex = term then do
    let l' ← l.commitTo maxIndex
    return (true, l')
  else return (false, l)

/-- Truncate everything at or above the first new entry's index, then append
the new entries (the spec's "truncates unstable/persisted above it, appends
the remainder", §4.1). -/
def truncAppend (l : RaftLog) (es : List pb.Entry) : RaftLog :=
  match es with
  | [] => l
  | e :: _ => { l with entries := l.entries.take (e.Index - l.snapIndex - 1) ++ es }

/-- Modelled from the spec: `append(entries)` — entries carry indices
starting at the append point; an append below `committed` is an invariant
violation (§4.1, §7).  Returns the new last index. -/
def append (l : RaftLog) (es : List pb.Entry) : Except Fault (Nat × RaftLog) :=
  match es with
  | [] => .ok (l.LastIndex, l)
  | e :: _ =>
    if e.Index - 1 < l.committed then .error .appendOutOfRange
    else
      let l' := l.truncAppend es
      .ok (l'.LastIndex, l')

/-- Index of the first entry whose (index, term) conflicts with the log,
`0` when none conflicts. -/
def findConflict (l : RaftLog) (es : List pb.Entry) : Nat :=
  ((es.find? (fun e => !(l.matchTerm e.Index e.Term))).map (fun e => e.Index)).getD 0

/-- Modelled from the spec: `maybe_append(prev_index, prev_term,
leader_commit, entries)` — `none` if the previous entry does not match;
otherwise truncate at the first conflict, append the remainder, advance
`committed` to `min(leader_commit, index_of_last_new_entry)` and return the
latter (§4.1).  A conflict at or below `committed` is fatal (§7). -/
def maybeAppend (l : RaftLog) (index logTerm committed : Nat) (ents : List pb.Entry) :
    Except Fault (Option (Nat × RaftLog)) :=
  if l.matchTerm index logTerm then do
    let lastnewi := index + ents.length
    let ci := l.findConflict ents
    let l' ←
      if ci = 0 then pure l
      else if ci ≤ l.committed then Except.error .conflictWithCommitted
      else pure (l.truncAppend (ents.drop (ci - index - 1)))
    let l'' ← l'.commitTo (min committed lastnewi)
    return some (lastnewi, l'')
  else return none

/-- Modelled from the spec: `slice(lo, hi)` returning entries `[lo, hi)`;
errors out of `[first_index, last_index + 1]` are all collapsed to `none`
(the byte-size limit is only reached with `noLimit` by the core). -/
def slice (l : RaftLog) (lo hi : Nat) : Option (List pb.Entry) :=
  if hi < lo then none
  else if lo = hi then some []
  else if lo < l.firstIndex then none
  else if l.LastIndex + 1 < hi then none
  else some ((l.entries.drop (lo - l.snapIndex - 1)).take (hi - lo))

/-- Modelled from the spec: `entries(i)` — everything from `i` on, `none`
on a compacted or out-of-range `i`. -/
def Entries (l : RaftLog) (i : Nat) : Option (List pb.Entry) :=
  if l.LastIndex < i then some []
  else l.slice i (l.LastIndex + 1)

/-- Modelled from the spec: the snapshot the log can hand out describes its
compacted prefix (§6); the conf state it carries is not tracked by this
model and is left empty (no claim inspects it). -/
def snapshotGet (l : RaftLog) : pb.Snapshot :=
  { Metadata := { Index := l.snapIndex, Term := l.snapTerm, ConfState := {} } }

/-- Modelled from the spec: `restore(snapshot)` — discards the tail, sets
the pending snapshot, resets `committed` to the snapshot index (§4.1). -/
def restore (l : RaftLog) (s : pb.Snapshot) : RaftLog :=
  { snapIndex := s.Metadata.Index
    snapTerm := s.Metadata.Term
    entries := []
    committed := s.Metadata.Index
    applied := l.applied }

/-- Modelled from the spec: move the applied cursor (`appliedTo`). -/
def appliedTo (l : RaftLog) (i : Nat) : RaftLog :=
  { l with applied := i }

end RaftLog

/-- Modelled from the spec: the per-follower replication cursor (§4.2). -/
structure Progress where
  Match : Nat := 0
  Next : Nat := 0
deriving DecidableEq, Repr

namespace Progress

/-- Modelled from the spec: `maybe_update(n)` — if `n > match` set
`match ← n`; always raise `next` to at least `n + 1`; report whether
`match` advanced (§4.2). -/
def maybeUpdate (pr : Progress) (n : Nat) : Bool × Progress :=
  let (updated, pr) :=
    if pr.Match < n then (true, { pr with Match := n }) else (false, pr)
  if pr.Next < n + 1 then (updated, { pr with Next := n + 1 }) else (updated, pr)

/-- Modelled from the spec: `maybe_decr_to(rejected_index, reject_hint)` —
back `next` off to `max(1, min(rejected_index, reject_hint + 1))`, never
below `match + 1`; report whether `next` actually decreased (§4.2). -/
def maybeDecrTo (pr : Progress) (rejected last : Nat) : Bool × Progress :=
  let n := max (pr.Match + 1) (max 1 (min rejected (last + 1)))
  if n < pr.Next then (true, { pr with Next := n }) else (false, pr)

end Progress

/-- Lookup in an association list standing for a Go map. -/
def prsGet (prs : List (Nat × Progress)) (id : Nat) : Option Progress :=
  (prs.find? (fun p => p.1 == id)).map (fun p => p.2)

/-- Insert or overwrite in an association list standing for a Go map. -/
def prsSet (prs : List (Nat × Progress)) (id : Nat) (pr : Progress) : List (Nat × Progress) :=
  if (prs.find? (fun p => p.1 == id)).isSome then
    prs.map (fun p => if p.1 == id then (id, pr) else p)
  else prs ++ [(id, pr)]

/-- `numOfPendingConf`: conf-change entries in a slice. -/
def numOfPendingConf (ents : List pb.Entry) : Nat :=
  ents.countP (fun e => e.EntryType == .EntryConfChange)

/-- The `Raft` state machine state (struct `Raft` in raft.go).  The Go
`tick` and `step` function pointers always agree with `State` and are
replaced by dispatch on `State`.  `Prs` and `votes` are association lists
standing for the Go maps; iteration follows list order (Go map iteration
order is unspecified, and no verified property depends on it).  `rnd` is
the injected stream of election-timeout jitter draws (spec §9):
`lockedRand.Intn(n)` pops the head modulo `n`. -/
structure Raft where
  id : Nat := 0
  Term : Nat := 0
  Vote : Nat := 0
  raftLog : RaftLog := {}
  Prs : List (Nat × Progress) := []
  State : StateType := .StateFollower
  votes : List (Nat × Bool) := []
  msgs : List pb.Message := []
  Lead : Nat := 0
  leadTransferee : Nat := 0
  PendingConfIndex : Nat := 0
  electionElapsed : Nat := 0
  heartbeatElapsed : Nat := 0
  heartbeatTimeout : Nat := 0
  electionTimeout : Nat := 0
  randomizedElectionTimeout : Nat := 0
  rnd : List Nat := []
deriving DecidableEq, Repr

namespace Raft

/-- `quorum`: `len(r.Prs)/2 + 1`. -/
def quorum (r : Raft) : Nat := r.Prs.length / 2 + 1

def getProgress (r : Raft) (id : Nat) : Option Progress := prsGet r.Prs id

/-- `send` stamps `From` and the term field and appends to the outbox.
The source's assertions on the term-field discipline (vote messages must
carry a term, other messages must not) hold at every internal call site
and are not modelled. -/
def send (r : Raft) (m : pb.Message) : Raft :=
  let m := { m with From := r.id }
  let m :=
    if m.MsgType = .MsgRequestVote ∨ m.MsgType = .MsgRequestVoteResponse then m
    else if m.MsgType = .MsgPropose then m
    else { m with Term := r.Term }
  { r with msgs := r.msgs ++ [m] }

/-- `maybeSendAppend`: append RPC with new entries to one peer, falling
back to a snapshot when the term or entries at `Next` are gone. -/
def maybeSendAppend (r : Raft) (toId : Nat) (sendIfEmpty : Bool) : Except Fault (Bool × Raft) :=
  match r.getProgress toId with
  | none => .error .nilProgress
  | some pr =>
    let errt := r.raftLog.Term (pr.Next - 1)
    let erre := r.raftLog.Entries pr.Next
    let ents := erre.getD []
    if ents.isEmpty ∧ ¬sendIfEmpty then .ok (false, r)
    else if errt.isNone ∨ erre.isNone then
      let snapshot := r.raftLog.snapshotGet
      if snapshot.Metadata.Index = 0 then .error .needNonEmptySnapshot
      else .ok (true, r.send { MsgType := .MsgSnapshot, To := toId, Snapshot := some snapshot })
    else
      .ok (true, r.send { MsgType := .MsgAppend, To := toId, Index := pr.Next - 1,
                          LogTerm := errt.getD 0, Entries := ents,
                          Commit := r.raftLog.committed })

/-- `sendAppend`. -/
def sendAppend (r : Raft) (toId : Nat) : Except Fault Raft := do
  let (_, r) ← r.maybeSendAppend toId true
  return r

/-- `sendHeartbeat` attaches `min(to.Match, committed)` as the commit. -/
def sendHeartbeat (r : Raft) (toId : Nat) : Except Fault Raft :=
  match r.getProgress toId with
  | none => .error .nilProgress
  | some pr =>
    let commit := min pr.Match r.raftLog.committed
    .ok (r.send { To := toId, MsgType := .MsgHeartbeat, Commit := commit })

/-- `bcastAppend` sends appends to every peer but self. -/
def bcastAppend (r : Raft) : Except Fault Raft :=
  (r.Prs.map (fun p => p.1)).foldlM
    (fun acc id => if id = acc.id then pure acc else acc.sendAppend id) r

/-- `bcastHeartbeat` sends heartbeats to every peer but self. -/
def bcastHeartbeat (r : Raft) : Except Fault Raft :=
  (r.Prs.map (fun p => p.1)).foldlM
    (fun acc id => if id = acc.id then pure acc else acc.sendHeartbeat id) r

/-- `maybeCommit`: sort the collected `Match` values ascending and hand the
value at position `len − quorum` to the log's commit rule. -/
def maybeCommit (r : Raft) : Except Fault (Bool × Raft) := do
  let matchIndex := (r.Prs.map (fun p => p.2.Match)).insertionSort (· ≤ ·)
  let mci := matchIndex.getD (matchIndex.length - r.quorum) 0
  let (b, l') ← r.raftLog.maybeCommit mci r.Term
  return (b, { r with raftLog := l' })

def resetRandomizedElectionTimeout (r : Raft) : Raft :=
  { r with randomizedElectionTimeout := r.electionTimeout + r.rnd.headD 0 % r.electionTimeout,
           rnd := r.rnd.tail }

def abortLeaderTransfer (r : Raft) : Raft := { r with leadTransferee := 0 }

/-- `reset(term)`: adopt `term` (clearing `Vote` only on a strict change),
clear leader/timers/tally/transfer, reinitialise every progress. -/
def reset (r : Raft) (term : Nat) : Raft :=
  let r := if r.Term ≠ term then { r with Term := term, Vote := 0 } else r
  let r := { r with Lead := 0, electionElapsed := 0, heartbeatElapsed := 0 }
  let r := r.resetRandomizedElectionTimeout
  let r := r.abortLeaderTransfer
  { r with votes := [],
           Prs := r.Prs.map (fun p =>
             (p.1, { Next := r.raftLog.LastIndex + 1,
                     Match := if p.1 = r.id then r.raftLog.LastIndex else 0 })),
           PendingConfIndex := 0 }

/-- `appendEntry`: stamp term and dense indices, append, update own
progress, try to commit. -/
def appendEntry (r : Raft) (es : List pb.Entry) : Except Fault Raft := do
  let li := r.raftLog.LastIndex
  let es := es.enum.map (fun p => { p.2 with Term := r.Term, Index := li + 1 + p.1 })
  let (li', log') ← r.raftLog.append es
  let r := { r with raftLog := log' }
  match r.getProgress r.id with
  | none => .error .nilProgress
  | some pr =>
    let (_, pr') := pr.maybeUpdate li'
    let r := { r with Prs := prsSet r.Prs r.id pr' }
    let (_, r) ← r.maybeCommit
    return r

def becomeFollower (r : Raft) (term lead : Nat) : Raft :=
  let r := r.reset term
  { r with Lead := lead, State := .StateFollower }

/-- `becomeCandidate` panics on the forbidden `Leader → Candidate`. -/
def becomeCandidate (r : Raft) : Except Fault Raft :=
  if r.State = .StateLeader then .error .leaderToCandidate
  else
    let r := r.reset (r.Term + 1)
    .ok { r with Vote := r.id, State := .StateCandidate }

/-- `becomeLeader` panics on the forbidden `Follower → Leader`; otherwise
resets at the same term, conservatively sets `PendingConfIndex` to the last
index, and appends the empty entry of the new leadership. -/
def becomeLeader (r : Raft) : Except Fault Raft :=
  if r.State = .StateFollower then .error .followerToLeader
  else
    let r := r.reset r.Term
    let r := { r with Lead := r.id, State := .StateLeader,
                      PendingConfIndex := r.raftLog.LastIndex }
    r.appendEntry [{}]

/-- `poll` records the first response of each peer and counts grants. -/
def poll (r : Raft) (id : Nat) (_t : pb.MessageType) (v : Bool) : Nat × Raft :=
  let votes :=
    if (r.votes.find? (fun p => p.1 == id)).isSome then r.votes else r.votes ++ [(id, v)]
  let granted := votes.countP (fun p => p.2)
  (granted, { r with votes := votes })

/-- `campaign`: become candidate, vote for self, win outright in a
single-node cluster, otherwise request votes from every peer (attaching the
campaign type as context only for a transfer). -/
def campaign (r : Raft) (t : CampaignType) : Except Fault Raft := do
  let r ← r.becomeCandidate
  let term := r.Term
  let (granted, r) := r.poll r.id .MsgRequestVoteResponse true
  if r.quorum = granted then
    r.becomeLeader
  else
    let ctx : Option CampaignType :=
      if t = .campaignTransfer then some .campaignTransfer else none
    .ok ((r.Prs.map (fun p => p.1)).foldl
      (fun acc id =>
        if id = acc.id then acc
        else acc.send { Term := term, To := id, MsgType := .MsgRequestVote,
                        Index := acc.raftLog.LastIndex, LogTerm := acc.raftLog.lastTerm,
                        Context := ctx }) r)

/-- `handleAppendEntries`. -/
def handleAppendEntries (r : Raft) (m : pb.Message) : Except Fault Raft :=
  if m.Index < r.raftLog.committed then
    .ok (r.send { To := m.From, MsgType := .MsgAppendResponse, Index := r.raftLog.committed })
  else do
    match ← r.raftLog.maybeAppend m.Index m.LogTerm m.Commit m.Entries with
    | some (mlastIndex, log') =>
      .ok (({ r with raftLog := log' } : Raft).send
        { To := m.From, MsgType := .MsgAppendResponse, Index := mlastIndex })
    | none =>
      .ok (r.send { To := m.From, MsgType := .MsgAppendResponse, Index := m.Index,
                    Reject := true, RejectHint := r.raftLog.LastIndex })

/-- `handleHeartbeat` commits to the message's commit index unguarded. -/
def handleHeartbeat (r : Raft) (m : pb.Message) : Except Fault Raft := do
  let log' ← r.raftLog.commitTo m.Commit
  .ok (({ r with raftLog := log' } : Raft).send
    { To := m.From, MsgType := .MsgHeartbeatResponse, Context := m.Context })

/-- `restoreNode` rebuilds progress for the snapshot's membership. -/
def restoreNode (r : Raft) (nodes : List Nat) : Raft :=
  nodes.foldl (fun acc n =>
    let nxt := acc.raftLog.LastIndex + 1
    let mtch := if n = acc.id then nxt - 1 else 0
    { acc with Prs := prsSet acc.Prs n { Match := mtch, Next := nxt } }) r

/-- `restore` installs a snapshot: refused at or below `committed`;
fast-forwards commit when the snapshot matches an existing entry; otherwise
resets log and membership.  Returns whether the log was reset. -/
def restore (r : Raft) (s : pb.Snapshot) : Except Fault (Bool × Raft) :=
  if s.Metadata.Index ≤ r.raftLog.committed then .ok (false, r)
  else if r.raftLog.matchTerm s.Metadata.Index s.Metadata.Term then do
    let log' ← r.raftLog.commitTo s.Metadata.Index
    .ok (false, { r with raftLog := log' })
  else
    let r := { r with raftLog := r.raftLog.restore s, Prs := [] }
    .ok (true, r.restoreNode s.Metadata.ConfState.Nodes)

/-- `handleSnapshot` acks at the new last index after a restore, else at
the current commit. -/
def handleSnapshot (r : Raft) (m : pb.Message) : Except Fault Raft := do
  match m.Snapshot with
  | none => .error .nilSnapshot
  | some s =>
    let (restored, r) ← r.restore s
    if restored then
      .ok (r.send { To := m.From, MsgType := .MsgAppendResponse, Index := r.raftLog.LastIndex })
    else
      .ok (r.send { To := m.From, MsgType := .MsgAppendResponse, Index := r.raftLog.committed })

/-- `promotable`: self is in the progress list. -/
def promotable (r : Raft) : Bool := (r.getProgress r.id).isSome

/-- `pastElectionTimeout`. -/
def pastElectionTimeout (r : Raft) : Bool :=
  r.randomizedElectionTimeout ≤ r.electionElapsed

def sendTimeoutNow (r : Raft) (toId : Nat) : Raft :=
  r.send { To := toId, MsgType := .MsgTimeoutNow }

/-- `loadState` adopts a persisted hard state; a commit outside
`[committed, last_index]` is fatal. -/
def loadState (r : Raft) (state : pb.HardState) : Except Fault Raft :=
  if state.Commit < r.raftLog.committed ∨ r.raftLog.LastIndex < state.Commit then
    .error .loadStateOutOfRange
  else
    .ok { r with raftLog := { r.raftLog with committed := state.Commit },
                 Term := state.Term, Vote := state.Vote }

end Raft

/-- The conf-change gate of the leader's `MsgPropose` loop (`stepLeader`):
`li` is the leader's last log index and `applied` its applied cursor, both
fixed during the loop; the running `PendingConfIndex` and the position `i`
of the head of `es` within the proposed batch are threaded through.  A
conf-change entry arriving while `PendingConfIndex > applied` is replaced
by an empty normal entry; one accepted sets `PendingConfIndex` to
`li + i + 1`, the index at which it will be appended. -/
def proposeTransform (li applied : Nat) : Nat → Nat → List pb.Entry → List pb.Entry × Nat
  | pci, _, [] => ([], pci)
  | pci, i, e :: rest =>
    if e.EntryType = .EntryConfChange then
      if applied < pci then
        let (tail, p) := proposeTransform li applied pci (i + 1) rest
        ({ EntryType := .EntryNormal } :: tail, p)
      else
        let (tail, p) := proposeTransform li applied (li + i + 1) (i + 1) rest
        (e :: tail, p)
    else
      let (tail, p) := proposeTransform li applied pci (i + 1) rest
      (e :: tail, p)

/-- `stepLeader`. -/
def stepLeader (r : Raft) (m : pb.Message) : Except Fault (Raft × Option StepErr) := do
  match m.MsgType with
  | .MsgBeat => do
    let r ← r.bcastHeartbeat
    return (r, none)
  | .MsgPropose =>
    if m.Entries.isEmpty then .error .emptyPropose
    else if (r.getProgress r.id).isNone then .ok (r, some .proposalDropped)
    else if r.leadTransferee ≠ 0 then .ok (r, some .proposalDropped)
    else do
      let (es, pci) :=
        proposeTransform r.raftLog.LastIndex r.raftLog.applied r.PendingConfIndex 0 m.Entries
      let r := { r with PendingConfIndex := pci }
      let r ← r.appendEntry es
      let r ← r.bcastAppend
      return (r, none)
  | _ =>
    match r.getProgress m.From with
    | none => .ok (r, none)
    | some pr =>
      match m.MsgType with
      | .MsgAppendResponse =>
        if m.Reject then
          let (dec, pr') := pr.maybeDecrTo m.Index m.RejectHint
          let r := { r with Prs := prsSet r.Prs m.From pr' }
          if dec then do
            let r ← r.sendAppend m.From
            return (r, none)
          else return (r, none)
        else
          let (upd, pr') := pr.maybeUpdate m.Index
          let r := { r with Prs := prsSet r.Prs m.From pr' }
          if upd then do
            let (adv, r) ← r.maybeCommit
            let r ← if adv then r.bcastAppend else pure r
            let r := if m.From = r.leadTransferee ∧ pr'.Match = r.raftLog.LastIndex
                     then r.sendTimeoutNow m.From else r
            return (r, none)
          else return (r, none)
      | .MsgHeartbeatResponse =>
        if pr.Match < r.raftLog.LastIndex then do
          let r ← r.sendAppend m.From
          return (r, none)
        else return (r, none)
      | .MsgTransferLeader =>
        let leadTransferee := m.From
        let lastLeadTransferee := r.leadTransferee
        if lastLeadTransferee ≠ 0 ∧ lastLeadTransferee = leadTransferee then return (r, none)
        else
          let r := if lastLeadTransferee ≠ 0 then r.abortLeaderTransfer else r
          if leadTransferee = r.id then return (r, none)
          else
            let r := { r with electionElapsed := 0, leadTransferee := leadTransferee }
            if pr.Match = r.raftLog.LastIndex then
              return (r.sendTimeoutNow leadTransferee, none)
            else do
              let r ← r.sendAppend leadTransferee
              return (r, none)
      | _ => return (r, none)

/-- `stepCandidate`. -/
def stepCandidate (r : Raft) (m : pb.Message) : Except Fault (Raft × Option StepErr) := do
  match m.MsgType with
  | .MsgPropose => .ok (r, some .proposalDropped)
  | .MsgAppend => do
    let r := r.becomeFollower m.Term m.From
    let r ← r.handleAppendEntries m
    return (r, none)
  | .MsgHeartbeat => do
    let r := r.becomeFollower m.Term m.From
    let r ← r.handleHeartbeat m
    return (r, none)
  | .MsgSnapshot => do
    let r := r.becomeFollower m.Term m.From
    let r ← r.handleSnapshot m
    return (r, none)
  | .MsgRequestVoteResponse =>
    let (gr, r) := r.poll m.From m.MsgType (!m.Reject)
    if r.quorum = gr then do
      let r ← r.becomeLeader
      let r ← r.bcastAppend
      return (r, none)
    else if r.quorum = r.votes.length - gr then
      return (r.becomeFollower r.Term 0, none)
    else return (r, none)
  | _ => return (r, none)

/-- `stepFollower`. -/
def stepFollower (r : Raft) (m : pb.Message) : Except Fault (Raft × Option StepErr) := do
  match m.MsgType with
  | .MsgPropose =>
    if r.Lead = 0 then .ok (r, some .proposalDropped)
    else .ok (r.send { m with To := r.Lead }, none)
  | .MsgAppend => do
    let r := { r with electionElapsed := 0, Lead := m.From }
    let r ← r.handleAppendEntries m
    return (r, none)
  | .MsgHeartbeat => do
    let r := { r with electionElapsed := 0, Lead := m.From }
    let r ← r.handleHeartbeat m
    return (r, none)
  | .MsgSnapshot => do
    let r := { r with electionElapsed := 0, Lead := m.From }
    let r ← r.handleSnapshot m
    return (r, none)
  | .MsgTransferLeader =>
    if r.Lead = 0 then .ok (r, none)
    else .ok (r.send { m with To := r.Lead }, none)
  | .MsgTimeoutNow =>
    if r.promotable then do
      let r ← r.campaign .campaignTransfer
      return (r, none)
    else return (r, none)
  | _ => return (r, none)

/-- The message switch of `Step` after term arbitration: the
role-independent handlers (`MsgHup`, `MsgRequestVote`), then dispatch on
the role (the Go `r.step` function pointer). -/
def stepMain (r : Raft) (m : pb.Message) : Except Fault (Raft × Option StepErr) :=
  match m.MsgType with
  | .MsgHup =>
    if r.State ≠ .StateLeader then
      match r.raftLog.slice (r.raftLog.applied + 1) (r.raftLog.committed + 1) with
      | none => .error .sliceFault
      | some ents =>
        if numOfPendingConf ents ≠ 0 ∧ r.raftLog.applied < r.raftLog.committed then
          .ok (r, none)
        else do
          let r ← r.campaign .campaignElection
          return (r, none)
    else .ok (r, none)
  | .MsgRequestVote =>
    let canVote := r.Vote = m.From ∨ (r.Vote = 0 ∧ r.Lead = 0)
    if canVote ∧ r.raftLog.isUpToDate m.Index m.LogTerm then
      let r := r.send { To := m.From, Term := m.Term, MsgType := .MsgRequestVoteResponse }
      .ok ({ r with electionElapsed := 0, Vote := m.From }, none)
    else
      .ok (r.send { To := m.From, Term := r.Term, MsgType := .MsgRequestVoteResponse,
                    Reject := true }, none)
  | _ =>
    match r.State with
    | .StateFollower => stepFollower r m
    | .StateCandidate => stepCandidate r m
    | .StateLeader => stepLeader r m

/-- `Step`: term arbitration (a higher term makes us follower, a lower term
drops the message), then the message switch. -/
def Raft.Step (r : Raft) (m : pb.Message) : Except Fault (Raft × Option StepErr) :=
  if m.Term ≠ 0 ∧ m.Term < r.Term then .ok (r, none)
  else
    let r :=
      if m.Term ≠ 0 ∧ r.Term < m.Term then
        if m.MsgType = .MsgAppend ∨ m.MsgType = .MsgHeartbeat ∨ m.MsgType = .MsgSnapshot then
          r.becomeFollower m.Term m.From
        else r.becomeFollower m.Term 0
      else r
    stepMain r m

/-- `tickElection`. -/
def Raft.tickElection (r : Raft) : Except Fault Raft := do
  let r := { r with electionElapsed := r.electionElapsed + 1 }
  if r.promotable ∧ r.pastElectionTimeout then do
    let r := { r with electionElapsed := 0 }
    let (r, _) ← r.Step { From := r.id, MsgType := .MsgHup }
    return r
  else return r

/-- `tickHeartbeat`. -/
def Raft.tickHeartbeat (r : Raft) : Except Fault Raft := do
  let r := { r with heartbeatElapsed := r.heartbeatElapsed + 1,
                    electionElapsed := r.electionElapsed + 1 }
  let r :=
    if r.electionTimeout ≤ r.electionElapsed then
      let r := { r with electionElapsed := 0 }
      if r.State = .StateLeader ∧ r.leadTransferee ≠ 0 then r.abortLeaderTransfer else r
    else r
  if r.State ≠ StateType.StateLeader then return r
  else if r.heartbeatTimeout ≤ r.heartbeatElapsed then do
    let r := { r with heartbeatElapsed := 0 }
    let (r, _) ← r.Step { From := r.id, MsgType := .MsgBeat }
    return r
  else return r

/-- The Go `tick` function pointer, dispatched on the role. -/
def Raft.tick (r : Raft) : Except Fault Raft :=
  match r.State with
  | .StateLeader => r.tickHeartbeat
  | _ => r.tickElection

/-- Modelled from the spec: the in-memory storage backing a fresh or
restarted node (§6): a compacted prefix described by snapshot metadata,
persisted entries above it, the last hard state and conf state. -/
structure Storage where
  snapIndex : Nat := 0
  snapTerm : Nat := 0
  ents : List pb.Entry := []
  hardState : pb.HardState := {}
  confNodes : List Nat := []
deriving DecidableEq, Repr

/-- `Config`, restricted to the fields the core consults (`MaxEntsSize` is
only reached with `noLimit` and the logger is ignored); `rnd` injects the
randomness of `globalRand` (spec §9). -/
structure Config where
  ID : Nat := 0
  peers : List Nat := []
  ElectionTick : Nat := 0
  HeartbeatTick : Nat := 0
  Storage : Storage := {}
  Applied : Nat := 0
  rnd : List Nat := []
deriving Repr

/-- `Config.validate`. -/
def Config.validate (c : Config) : Bool :=
  c.ID ≠ 0 ∧ 0 < c.HeartbeatTick ∧ c.HeartbeatTick < c.ElectionTick

/-- `newRaft`, with `newLogWithSize` and `Storage.InitialState` modelled
from the spec (§3 lifecycle, §6 storage contract): the log of a restarting
node starts with both cursors at `first_index − 1`. -/
def newRaft (c : Config) : Except Fault Raft := do
  if !c.validate then .error .configInvalid
  else
    let raftlog : RaftLog :=
      { snapIndex := c.Storage.snapIndex, snapTerm := c.Storage.snapTerm,
        entries := c.Storage.ents, committed := c.Storage.snapIndex,
        applied := c.Storage.snapIndex }
    let hs := c.Storage.hardState
    let cs := c.Storage.confNodes
    let peers ←
      if !cs.isEmpty then
        if !c.peers.isEmpty then Except.error .configInvalid else pure cs
      else pure c.peers
    let r : Raft :=
      { id := c.ID, Lead := 0, raftLog := raftlog,
        Prs := peers.map (fun p => (p, ({ Next := 1 } : Progress))),
        electionTimeout := c.ElectionTick, heartbeatTimeout := c.HeartbeatTick,
        rnd := c.rnd }
    let r ← if !pb.IsEmptyHardState hs then r.loadState hs else pure r
    let r := if 0 < c.Applied then { r with raftLog := r.raftLog.appliedTo c.Applied } else r
    return r.becomeFollower r.Term 0

/-- Iterated clock: `n` invocations of `tick`. -/
def tickN (n : Nat) (r : Raft) : Except Fault Raft :=
  match n with
  | 0 => .ok r
  | n + 1 => do tickN n (← r.tick)

/-! Invariant infrastructure: a computation is `exOK c proj` when it either
returns a value whose projected commit cursor is at least `c`, or fails with
a fault other than the two forbidden role transitions. -/

/-- A fault other than the two forbidden role transitions. -/
def benignF (f : Fault) : Prop :=
  f ≠ Fault.leaderToCandidate ∧ f ≠ Fault.followerToLeader

/-- Boolean form of `benignF`. -/
def benignFb (f : Fault) : Bool :=
  !(f == Fault.leaderToCandidate) && !(f == Fault.followerToLeader)

/-- Either a result whose projection dominates `c`, or a benign fault. -/
def exOK (c : Nat) (proj : α → Nat) : Except Fault α → Prop
  | .ok a => c ≤ proj a
  | .error f => benignF f

/-- Either a result whose projection is the given log, or a benign fault. -/
def exEq (l : RaftLog) (proj : α → RaftLog) : Except Fault α → Prop
  | .ok a => proj a = l
  | .error f => benignF f

theorem exOK_mono {c c' : Nat} {proj : α → Nat} {e : Except Fault α}
    (hcc : c ≤ c') (h : exOK c' proj e) : exOK c proj e := by
  cases e with
  | ok a => exact le_trans hcc h
  | error f => exact h

theorem exOK_bind {c : Nat} {p : α → Nat} {pc : β → Nat} {e : Except Fault α}
    {f : α → Except Fault β}
    (h1 : exOK c p e)
    (h2 : ∀ a, e = .ok a → exOK (p a) pc (f a)) :
    exOK c pc (e.bind f) := by
  cases e with
  | error fa => exact h1
  | ok a => exact exOK_mono h1 (h2 a rfl)

theorem exEq_exOK {l : RaftLog} {proj : α → RaftLog} {e : Except Fault α}
    (h : exEq l proj e) : exOK l.committed (fun a => (proj a).committed) e := by
  cases e with
  | ok a => simp only [exEq] at h; simp [exOK, h]
  | error f => exact h

theorem exEq_bind {l : RaftLog} {pa : α → RaftLog} {pc : β → RaftLog} {e : Except Fault α}
    {f : α → Except Fault β}
    (h1 : exEq l pa e)
    (h2 : ∀ a, e = .ok a → exEq (pa a) pc (f a)) :
    exEq l pc (e.bind f) := by
  cases e with
  | error fa => exact h1
  | ok a =>
    have := h2 a rfl
    cases hf : f a with
    | error fb =>
      rw [hf] at this
      simpa [exEq, Except.bind, hf] using this
    | ok b =>
      have h1' : pa a = l := h1
      have h2' : pc b = pa a := by simpa [exEq, hf] using this
      simp [exEq, Except.bind, hf, h1', h2']

theorem commitTo_exOK (l : RaftLog) (c : Nat) :
    exOK l.committed (fun x => x.committed) (l.commitTo c) := by
  unfold RaftLog.commitTo
  by_cases h1 : l.committed < c
  · rw [if_pos h1]
    by_cases h2 : l.LastIndex < c
    · rw [if_pos h2]; exact ⟨by decide, by decide⟩
    · rw [if_neg h2]; simp only [exOK]; omega
  · rw [if_neg h1]; simp [exOK]

theorem maybeCommit_log_exOK (l : RaftLog) (mi t : Nat) :
    exOK l.committed (fun p => p.2.committed) (l.maybeCommit mi t) := by
  unfold RaftLog.maybeCommit
  split
  · exact exOK_bind (commitTo_exOK l mi) (fun a _ => by simp [exOK, pure, Except.pure])
  · simp [exOK, pure, Except.pure]

theorem truncAppend_committed (l : RaftLog) (es : List pb.Entry) :
    (l.truncAppend es).committed = l.committed := by
  cases es <;> rfl

theorem append_exOK (l : RaftLog) (es : List pb.Entry) :
    exOK l.committed (fun p => p.2.committed) (l.append es) := by
  unfold RaftLog.append
  split
  · simp [exOK]
  · split
    · exact ⟨by decide, by decide⟩
    · simp only [exOK]
      rw [truncAppend_committed]

theorem append_committed_eq (l : RaftLog) (es : List pb.Entry) :
    ∀ n l', l.append es = .ok (n, l') → l'.committed = l.committed := by
  intro n l' h
  unfold RaftLog.append at h
  split at h
  · cases h; rfl
  · split at h
    · cases h
    · cases h
      exact truncAppend_committed l _

theorem maybeAppend_exOK (l : RaftLog) (i lt c : Nat) (es : List pb.Entry) :
    exOK l.committed
      (fun o => match o with | some p => p.2.committed | none => l.committed)
      (l.maybeAppend i lt c es) := by
  unfold RaftLog.maybeAppend
  split
  · have hjp : ∀ a : RaftLog, l.committed ≤ a.committed →
        exOK l.committed
          (fun o => match o with | some p => p.2.committed | none => l.committed)
          ((a.commitTo (min c (i + es.length))).bind
            (fun l'' => pure (some (i + es.length, l'')))) := by
      intro a ha
      exact exOK_mono ha (exOK_bind (commitTo_exOK a _)
        (fun b _ => by simp [exOK, pure, Except.pure]))
    dsimp only
    split
    · exact hjp l le_rfl
    · split
      · exact ⟨by decide, by decide⟩
      · exact hjp _ (le_of_eq (truncAppend_committed l _).symm)
  · simp [exOK, pure, Except.pure]

theorem send_raftLog (r : Raft) (m : pb.Message) : (r.send m).raftLog = r.raftLog := rfl

theorem reset_raftLog (r : Raft) (t : Nat) : (r.reset t).raftLog = r.raftLog := by
  unfold Raft.reset Raft.resetRandomizedElectionTimeout Raft.abortLeaderTransfer
  split <;> rfl

theorem becomeFollower_raftLog (r : Raft) (t ld : Nat) :
    (r.becomeFollower t ld).raftLog = r.raftLog := by
  unfold Raft.becomeFollower
  rw [reset_raftLog]

theorem poll_raftLog (r : Raft) (i : Nat) (t : pb.MessageType) (v : Bool) :
    ((r.poll i t v).2).raftLog = r.raftLog := rfl

theorem poll_state (r : Raft) (i : Nat) (t : pb.MessageType) (v : Bool) :
    ((r.poll i t v).2).State = r.State := rfl

theorem sendTimeoutNow_raftLog (r : Raft) (toId : Nat) :
    (r.sendTimeoutNow toId).raftLog = r.raftLog := rfl

theorem foldl_raftLog_eq (f : Raft → Nat → Raft) (hf : ∀ r x, (f r x).raftLog = r.raftLog) :
    ∀ (xs : List Nat) (r : Raft), (xs.foldl f r).raftLog = r.raftLog := by
  intro xs
  induction xs with
  | nil => intro r; rfl
  | cons x tl ih => intro r; rw [List.foldl_cons, ih, hf]

theorem restoreNode_raftLog (r : Raft) (ns : List Nat) :
    (r.restoreNode ns).raftLog = r.raftLog := by
  unfold Raft.restoreNode
  refine foldl_raftLog_eq _ ?_ ns r
  intro r' x
  rfl

theorem maybeSendAppend_exEq (r : Raft) (toId : Nat) (sie : Bool) :
    exEq r.raftLog (fun p => p.2.raftLog) (r.maybeSendAppend toId sie) := by
  unfold Raft.maybeSendAppend
  cases r.getProgress toId with
  | none => exact ⟨by decide, by decide⟩
  | some pr =>
    dsimp only
    split
    · rfl
    · split
      · split
        · exact ⟨by decide, by decide⟩
        · exact send_raftLog r _
      · exact send_raftLog r _

theorem sendAppend_exEq (r : Raft) (toId : Nat) :
    exEq r.raftLog (fun x => x.raftLog) (r.sendAppend toId) := by
  unfold Raft.sendAppend
  refine exEq_bind (maybeSendAppend_exEq r toId true) ?_
  intro a _
  exact rfl

theorem sendHeartbeat_exEq (r : Raft) (toId : Nat) :
    exEq r.raftLog (fun x => x.raftLog) (r.sendHeartbeat toId) := by
  unfold Raft.sendHeartbeat
  cases r.getProgress toId with
  | none => exact ⟨by decide, by decide⟩
  | some pr => exact send_raftLog r _

theorem foldlM_exEq (f : Raft → Nat → Except Fault Raft)
    (hf : ∀ r x, exEq r.raftLog (fun y => y.raftLog) (f r x)) :
    ∀ (xs : List Nat) (r : Raft), exEq r.raftLog (fun y => y.raftLog) (xs.foldlM f r) := by
  intro xs
  induction xs with
  | nil => intro r; rfl
  | cons x tl ih =>
    intro r
    rw [List.foldlM_cons]
    exact exEq_bind (hf r x) (fun a _ => ih a)

theorem bcastAppend_exEq (r : Raft) :
    exEq r.raftLog (fun y => y.raftLog) r.bcastAppend := by
  unfold Raft.bcastAppend
  refine foldlM_exEq _ ?_ _ r
  intro r' x
  by_cases h : x = r'.id
  · rw [if_pos h]; rfl
  · rw [if_neg h]; exact sendAppend_exEq r' x

theorem bcastHeartbeat_exEq (r : Raft) :
    exEq r.raftLog (fun y => y.raftLog) r.bcastHeartbeat := by
  unfold Raft.bcastHeartbeat
  refine foldlM_exEq _ ?_ _ r
  intro r' x
  by_cases h : x = r'.id
  · rw [if_pos h]; rfl
  · rw [if_neg h]; exact sendHeartbeat_exEq r' x

theorem raft_maybeCommit_exOK (r : Raft) :
    exOK r.raftLog.committed (fun p => p.2.raftLog.committed) r.maybeCommit := by
  unfold Raft.maybeCommit
  refine exOK_bind (maybeCommit_log_exOK r.raftLog _ _) ?_
  intro a _
  obtain ⟨b, l'⟩ := a
  exact le_rfl

theorem appendEntry_exOK (r : Raft) (es : List pb.Entry) :
    exOK r.raftLog.committed (fun x => x.raftLog.committed) (r.appendEntry es) := by
  unfold Raft.appendEntry
  refine exOK_bind (append_exOK r.raftLog _) ?_
  intro a _
  obtain ⟨li', log'⟩ := a
  dsimp only
  split
  · exact ⟨by decide, by decide⟩
  · refine exOK_bind (raft_maybeCommit_exOK _) ?_
    intro b _
    obtain ⟨b1, b2⟩ := b
    exact le_rfl

theorem becomeCandidate_exEq (r : Raft) (h : r.State ≠ .StateLeader) :
    exEq r.raftLog (fun x => x.raftLog) r.becomeCandidate := by
  unfold Raft.becomeCandidate
  rw [if_neg h]
  exact reset_raftLog r _

theorem becomeCandidate_state (r r' : Raft) (h : r.becomeCandidate = .ok r') :
    r'.State = .StateCandidate := by
  unfold Raft.becomeCandidate at h
  split at h
  · cases h
  · cases h; rfl

theorem becomeLeader_exOK (r : Raft) (h : r.State ≠ .StateFollower) :
    exOK r.raftLog.committed (fun x => x.raftLog.committed) r.becomeLeader := by
  unfold Raft.becomeLeader
  rw [if_neg h]
  dsimp only
  refine exOK_mono ?_ (appendEntry_exOK _ _)
  exact le_of_eq (congrArg RaftLog.committed (reset_raftLog r r.Term).symm)

theorem campaign_exOK (r : Raft) (t : CampaignType) (h : r.State ≠ .StateLeader) :
    exOK r.raftLog.committed (fun x => x.raftLog.committed) (r.campaign t) := by
  unfold Raft.campaign
  refine exOK_bind (exEq_exOK (becomeCandidate_exEq r h)) ?_
  intro a ha
  have hst : a.State = .StateCandidate := becomeCandidate_state r a ha
  dsimp only
  split
  · refine exOK_mono (le_of_eq rfl) (becomeLeader_exOK _ ?_)
    rw [poll_state, hst]
    decide
  · refine le_of_eq (congrArg RaftLog.committed (Eq.symm ?_))
    refine foldl_raftLog_eq _ ?_ _ _
    intro r' x
    by_cases hx : x = r'.id
    · rw [if_pos hx]
    · rw [if_neg hx]; exact send_raftLog r' _

theorem handleAppendEntries_exOK (r : Raft) (m : pb.Message) :
    exOK r.raftLog.committed (fun x => x.raftLog.committed) (r.handleAppendEntries m) := by
  unfold Raft.handleAppendEntries
  split
  · exact le_rfl
  · refine exOK_bind (maybeAppend_exOK r.raftLog m.Index m.LogTerm m.Commit m.Entries) ?_
    intro a _
    cases a with
    | none => exact le_rfl
    | some p =>
      obtain ⟨n, log'⟩ := p
      exact le_rfl

theorem handleHeartbeat_exOK (r : Raft) (m : pb.Message) :
    exOK r.raftLog.committed (fun x => x.raftLog.committed) (r.handleHeartbeat m) := by
  unfold Raft.handleHeartbeat
  refine exOK_bind (commitTo_exOK r.raftLog m.Commit) ?_
  intro a _
  exact le_rfl

theorem restore_exOK (r : Raft) (s : pb.Snapshot) :
    exOK r.raftLog.committed (fun p => p.2.raftLog.committed) (r.restore s) := by
  unfold Raft.restore
  split
  · exact le_rfl
  · split
    · refine exOK_bind (commitTo_exOK r.raftLog _) ?_
      intro a _
      exact le_rfl
    · rename_i h1 h2
      simp only [exOK]
      rw [restoreNode_raftLog]
      show r.raftLog.committed ≤ s.Metadata.Index
      omega

theorem restore_fresh (r : Raft) (s : pb.Snapshot) :
    ∀ b r', r.restore s = .ok (b, r') → b = true → r.raftLog.committed < s.Metadata.Index := by
  intro b r' h hb
  unfold Raft.restore at h
  split at h
  · cases h; cases hb
  · split at h
    · cases hct : r.raftLog.commitTo s.Metadata.Index with
      | error f => rw [hct] at h; cases h
      | ok log' =>
        rw [hct] at h
        cases h; cases hb
    · rename_i h1 h2
      omega

theorem handleSnapshot_exOK (r : Raft) (m : pb.Message) :
    exOK r.raftLog.committed (fun x => x.raftLog.committed) (r.handleSnapshot m) := by
  unfold Raft.handleSnapshot
  cases m.Snapshot with
  | none => exact ⟨by decide, by decide⟩
  | some s =>
    refine exOK_bind (restore_exOK r s) ?_
    intro a _
    obtain ⟨restored, r'⟩ := a
    dsimp only
    split
    · exact le_rfl
    · exact le_rfl

theorem stepLeader_exOK (r : Raft) (m : pb.Message) :
    exOK r.raftLog.committed (fun p => p.1.raftLog.committed) (stepLeader r m) := by
  unfold stepLeader
  cases m.MsgType
  case MsgBeat =>
    refine exOK_bind (exEq_exOK (bcastHeartbeat_exEq r)) ?_
    intro a _
    exact le_rfl
  case MsgPropose =>
    dsimp only
    split
    · exact ⟨by decide, by decide⟩
    · split
      · exact le_rfl
      · split
        · exact le_rfl
        · rcases hpt : proposeTransform r.raftLog.LastIndex r.raftLog.applied
            r.PendingConfIndex 0 m.Entries with ⟨es, pci⟩
          dsimp only
          refine exOK_bind (p := fun x : Raft => x.raftLog.committed)
            (appendEntry_exOK _ _) ?_
          intro a _
          refine exOK_bind (exEq_exOK (bcastAppend_exEq a)) ?_
          intro b _
          exact le_rfl
  case MsgAppendResponse =>
    dsimp only
    split
    · exact le_rfl
    · split
      · rcases hdec : Progress.maybeDecrTo _ m.Index m.RejectHint with ⟨dec, pr'⟩
        dsimp only
        split
        · refine exOK_bind (exEq_exOK (sendAppend_exEq _ m.From)) ?_
          intro a _
          exact le_rfl
        · exact le_rfl
      · rcases hupd : Progress.maybeUpdate _ m.Index with ⟨upd, pr'⟩
        dsimp only
        split
        · refine exOK_bind (raft_maybeCommit_exOK _) ?_
          intro a _
          obtain ⟨adv, r2⟩ := a
          dsimp only
          have hjp : ∀ b : Raft,
              exOK b.raftLog.committed (fun p : Raft × Option StepErr => p.1.raftLog.committed)
                (pure (if m.From = b.leadTransferee ∧ pr'.Match = b.raftLog.LastIndex
                       then b.sendTimeoutNow m.From else b, none)) := by
            intro b
            split
            · exact le_rfl
            · exact le_rfl
          split
          · exact exOK_bind (exEq_exOK (bcastAppend_exEq r2)) (fun b _ => hjp b)
          · exact hjp r2
        · exact le_rfl
  case MsgHeartbeatResponse =>
    dsimp only
    split
    · exact le_rfl
    · split
      · refine exOK_bind (exEq_exOK (sendAppend_exEq _ m.From)) ?_
        intro a _
        exact le_rfl
      · exact le_rfl
  case MsgTransferLeader =>
    dsimp only
    split
    · exact le_rfl
    · split
      · exact le_rfl
      · split
        · split
          · exact le_rfl
          · split
            · exact le_rfl
            · refine exOK_bind (exEq_exOK (sendAppend_exEq _ _)) ?_
              intro a _
              exact le_rfl
        · split
          · exact le_rfl
          · split
            · exact le_rfl
            · refine exOK_bind (exEq_exOK (sendAppend_exEq _ _)) ?_
              intro a _
              exact le_rfl
  all_goals
    dsimp only
    split
    · exact le_rfl
    · exact le_rfl

theorem stepCandidate_exOK (r : Raft) (m : pb.Message) (hst : r.State = .StateCandidate) :
    exOK r.raftLog.committed (fun p => p.1.raftLog.committed) (stepCandidate r m) := by
  unfold stepCandidate
  cases m.MsgType
  case MsgPropose => exact le_rfl
  case MsgAppend =>
    refine exOK_bind (p := fun x : Raft => x.raftLog.committed) ?_ ?_
    · refine exOK_mono (le_of_eq ?_) (handleAppendEntries_exOK _ m)
      exact congrArg RaftLog.committed (becomeFollower_raftLog r m.Term m.From).symm
    · intro a _
      exact le_rfl
  case MsgHeartbeat =>
    refine exOK_bind (p := fun x : Raft => x.raftLog.committed) ?_ ?_
    · refine exOK_mono (le_of_eq ?_) (handleHeartbeat_exOK _ m)
      exact congrArg RaftLog.committed (becomeFollower_raftLog r m.Term m.From).symm
    · intro a _
      exact le_rfl
  case MsgSnapshot =>
    refine exOK_bind (p := fun x : Raft => x.raftLog.committed) ?_ ?_
    · refine exOK_mono (le_of_eq ?_) (handleSnapshot_exOK _ m)
      exact congrArg RaftLog.committed (becomeFollower_raftLog r m.Term m.From).symm
    · intro a _
      exact le_rfl
  case MsgRequestVoteResponse =>
    dsimp only
    rcases hpoll : r.poll m.From .MsgRequestVoteResponse (!m.Reject) with ⟨gr, r1⟩
    have hr1log : r1.raftLog = r.raftLog := by
      have h := poll_raftLog r m.From .MsgRequestVoteResponse (!m.Reject)
      rw [hpoll] at h
      exact h
    have hr1st : r1.State = r.State := by
      have h := poll_state r m.From .MsgRequestVoteResponse (!m.Reject)
      rw [hpoll] at h
      exact h
    dsimp only
    split
    · refine exOK_bind (p := fun x : Raft => x.raftLog.committed) ?_ ?_
      · refine exOK_mono (le_of_eq (congrArg RaftLog.committed hr1log.symm))
          (becomeLeader_exOK r1 ?_)
        rw [hr1st, hst]
        decide
      · intro a _
        refine exOK_bind (exEq_exOK (bcastAppend_exEq a)) ?_
        intro b _
        exact le_rfl
    · split
      · simp only [exOK, pure, Except.pure]
        rw [becomeFollower_raftLog, hr1log]
      · simp only [exOK, pure, Except.pure]
        rw [hr1log]
  all_goals exact le_rfl

theorem stepFollower_exOK (r : Raft) (m : pb.Message) (hst : r.State = .StateFollower) :
    exOK r.raftLog.committed (fun p => p.1.raftLog.committed) (stepFollower r m) := by
  unfold stepFollower
  cases m.MsgType
  case MsgPropose =>
    dsimp only
    split
    · exact le_rfl
    · exact le_rfl
  case MsgAppend =>
    refine exOK_bind (p := fun x : Raft => x.raftLog.committed)
      (handleAppendEntries_exOK _ m) ?_
    intro a _
    exact le_rfl
  case MsgHeartbeat =>
    refine exOK_bind (p := fun x : Raft => x.raftLog.committed)
      (handleHeartbeat_exOK _ m) ?_
    intro a _
    exact le_rfl
  case MsgSnapshot =>
    refine exOK_bind (p := fun x : Raft => x.raftLog.committed)
      (handleSnapshot_exOK _ m) ?_
    intro a _
    exact le_rfl
  case MsgTransferLeader =>
    dsimp only
    split
    · exact le_rfl
    · exact le_rfl
  case MsgTimeoutNow =>
    dsimp only
    split
    · refine exOK_bind (campaign_exOK r .campaignTransfer ?_) ?_
      · rw [hst]
        decide
      · intro a _
        exact le_rfl
    · exact le_rfl
  all_goals exact le_rfl

theorem stepMain_exOK (r : Raft) (m : pb.Message) :
    exOK r.raftLog.committed (fun p => p.1.raftLog.committed) (stepMain r m) := by
  unfold stepMain
  cases m.MsgType
  case MsgHup =>
    dsimp only
    split
    · rename_i hnl
      split
      · exact ⟨by decide, by decide⟩
      · split
        · exact le_rfl
        · refine exOK_bind (campaign_exOK r .campaignElection hnl) ?_
          intro a _
          exact le_rfl
    · exact le_rfl
  case MsgRequestVote =>
    dsimp only
    split
    · exact le_rfl
    · exact le_rfl
  all_goals
    cases hs : r.State
    · exact stepFollower_exOK r m hs
    · exact stepCandidate_exOK r m hs
    · exact stepLeader_exOK r m

theorem Step_exOK (r : Raft) (m : pb.Message) :
    exOK r.raftLog.committed (fun p => p.1.raftLog.committed) (r.Step m) := by
  unfold Raft.Step
  split
  · exact le_rfl
  · dsimp only
    split
    · split
      · refine exOK_mono (le_of_eq ?_) (stepMain_exOK _ m)
        exact congrArg RaftLog.committed (becomeFollower_raftLog r m.Term m.From).symm
      · refine exOK_mono (le_of_eq ?_) (stepMain_exOK _ m)
        exact congrArg RaftLog.committed (becomeFollower_raftLog r m.Term 0).symm
    · exact stepMain_exOK r m

theorem tickElection_exOK (r : Raft) :
    exOK r.raftLog.committed (fun x => x.raftLog.committed) r.tickElection := by
  unfold Raft.tickElection
  dsimp only
  split
  · refine exOK_bind (Step_exOK _ _) ?_
    intro a _
    obtain ⟨a1, a2⟩ := a
    exact le_rfl
  · exact le_rfl

theorem tickHeartbeat_exOK (r : Raft) :
    exOK r.raftLog.committed (fun x => x.raftLog.committed) r.tickHeartbeat := by
  unfold Raft.tickHeartbeat
  dsimp only
  split
  · split
    · split
      · exact le_rfl
      · split
        · refine exOK_bind (Step_exOK _ _) ?_
          intro a _
          obtain ⟨a1, a2⟩ := a
          exact le_rfl
        · exact le_rfl
    · split
      · exact le_rfl
      · split
        · refine exOK_bind (Step_exOK _ _) ?_
          intro a _
          obtain ⟨a1, a2⟩ := a
          exact le_rfl
        · exact le_rfl
  · split
    · exact le_rfl
    · split
      · refine exOK_bind (Step_exOK _ _) ?_
        intro a _
        obtain ⟨a1, a2⟩ := a
        exact le_rfl
      · exact le_rfl

theorem tick_exOK (r : Raft) :
    exOK r.raftLog.committed (fun x => x.raftLog.committed) r.tick := by
  unfold Raft.tick
  cases r.State
  · exact tickElection_exOK r
  · exact tickElection_exOK r
  · exact tickHeartbeat_exOK r

/-- Boolean check: a `tick` result keeps `committed` at least `c`
(a fault leaves no state to inspect). -/
def commitMonoOK (c : Nat) : Except Fault Raft → Bool
  | .ok r => decide (c ≤ r.raftLog.committed)
  | .error _ => true

/-- Boolean check: a `Step` result keeps `committed` at least `c`. -/
def commitMonoOKP (c : Nat) : Except Fault (Raft × Option StepErr) → Bool
  | .ok p => decide (c ≤ p.1.raftLog.committed)
  | .error _ => true

/-- Boolean check: `restore` never lowers `committed`, and resets the log
only for a snapshot strictly above `committed`. -/
def restoreMonoOK (r : Raft) (s : pb.Snapshot) : Bool :=
  match r.restore s with
  | .ok (ch, r') =>
    decide (r.raftLog.committed ≤ r'.raftLog.committed)
      && (!ch || decide (r.raftLog.committed < s.Metadata.Index))
  | .error _ => true

/-- Boolean check: the computation did not fail with one of the two
forbidden role-transition panics. -/
def noTransitionFault : Except Fault α → Bool
  | .error Fault.leaderToCandidate => false
  | .error Fault.followerToLeader => false
  | _ => true

theorem noTransitionFault_of_exOK {c : Nat} {proj : α → Nat} {e : Except Fault α}
    (h : exOK c proj e) : noTransitionFault e = true := by
  cases e with
  | ok a => rfl
  | error f =>
    obtain ⟨h1, h2⟩ := h
    cases f <;> first | rfl | (exact absurd rfl h1) | (exact absurd rfl h2)

theorem appendEntry_ne_ftl (r : Raft) (es : List pb.Entry) :
    ¬ r.appendEntry es = .error .followerToLeader := by
  intro he
  have ha := appendEntry_exOK r es
  rw [he] at ha
  exact ha.2 rfl

/-- C1: For every state and every application of `tick`, `Step`, or
snapshot `restore`, the commit index `RaftLog.committed` never decreases;
and `restore` resets the log (returns `true`) only when the snapshot index
is strictly greater than `committed`. -/
theorem C1_committed_monotone (r : Raft) (m : pb.Message) (s : pb.Snapshot) :
    commitMonoOKP r.raftLog.committed (r.Step m) = true ∧
    commitMonoOK r.raftLog.committed r.tick = true ∧
    restoreMonoOK r s = true := by
  refine ⟨?_, ?_, ?_⟩
  · have h := Step_exOK r m
    cases he : r.Step m with
    | ok p =>
      rw [he] at h
      exact decide_eq_true h
    | error f => rfl
  · have h := tick_exOK r
    cases he : r.tick with
    | ok p =>
      rw [he] at h
      exact decide_eq_true h
    | error f => rfl
  · have h := restore_exOK r s
    cases he : r.restore s with
    | ok p =>
      obtain ⟨ch, r'⟩ := p
      rw [he] at h
      have h' : r.raftLog.committed ≤ r'.raftLog.committed := h
      unfold restoreMonoOK
      rw [he]
      cases ch with
      | false => simp [h']
      | true =>
        have h2 := restore_fresh r s true r' he rfl
        simp [h', h2]
    | error f =>
      unfold restoreMonoOK
      rw [he]

/-- C7: `becomeCandidate` panics (with the `leaderToCandidate` fault)
exactly when called in the Leader state, `becomeLeader` panics (with the
`followerToLeader` fault) exactly when called in the Follower state, and no
execution of `Step` or `tick` ever raises either fault — the two forbidden
transitions are never performed. -/
theorem C7_forbidden_transitions (r : Raft) (m : pb.Message) :
    (r.becomeCandidate = .error .leaderToCandidate ↔ r.State = .StateLeader) ∧
    (r.becomeLeader = .error .followerToLeader ↔ r.State = .StateFollower) ∧
    noTransitionFault (r.Step m) = true ∧
    noTransitionFault r.tick = true := by
  refine ⟨?_, ?_, ?_, ?_⟩
  · unfold Raft.becomeCandidate
    by_cases h : r.State = .StateLeader
    · simp [h]
    · simp [h]
  · by_cases h : r.State = .StateFollower
    · unfold Raft.becomeLeader
      simp [h]
    · unfold Raft.becomeLeader
      rw [if_neg h]
      dsimp only
      constructor
      · intro he
        exact absurd he (appendEntry_ne_ftl _ _)
      · intro hs
        exact absurd hs h
  · exact noTransitionFault_of_exOK (Step_exOK r m)
  · exact noTransitionFault_of_exOK (tick_exOK r)

theorem bind_ok_iff {e : Except Fault α} {f : α → Except Fault β} {b : β} :
    e >>= f = .ok b ↔ ∃ a, e = .ok a ∧ f a = .ok b := by
  cases e <;> simp [Bind.bind, Except.bind]

theorem raft_maybeCommit_frame (r : Raft) (b : Bool) (r2 : Raft)
    (h : r.maybeCommit = .ok (b, r2)) :
    r2.Term = r.Term ∧ r2.Vote = r.Vote ∧ r2.PendingConfIndex = r.PendingConfIndex ∧
    r2.Prs = r.Prs ∧ r2.State = r.State ∧ r2.msgs = r.msgs := by
  unfold Raft.maybeCommit at h
  dsimp only at h
  rw [bind_ok_iff] at h
  obtain ⟨p, _, hpure⟩ := h
  obtain ⟨b', l'⟩ := p
  simp only [pure, Except.pure, Except.ok.injEq, Prod.mk.injEq] at hpure
  obtain ⟨_, hr2⟩ := hpure
  subst hr2
  exact ⟨rfl, rfl, rfl, rfl, rfl, rfl⟩

theorem appendEntry_frame (r : Raft) (es : List pb.Entry) (r' : Raft)
    (h : r.appendEntry es = .ok r') :
    r'.Term = r.Term ∧ r'.Vote = r.Vote ∧ r'.PendingConfIndex = r.PendingConfIndex ∧
    r'.State = r.State := by
  unfold Raft.appendEntry at h
  dsimp only at h
  rw [bind_ok_iff] at h
  obtain ⟨a, _, h⟩ := h
  obtain ⟨li', log'⟩ := a
  dsimp only at h
  split at h
  · cases h
  · rw [bind_ok_iff] at h
    obtain ⟨p, hp, hpure⟩ := h
    obtain ⟨b', r2⟩ := p
    simp only [pure, Except.pure, Except.ok.injEq] at hpure
    subst hpure
    have hf := raft_maybeCommit_frame _ b' r2 hp
    exact ⟨hf.1, hf.2.1, hf.2.2.1, hf.2.2.2.2.1⟩

theorem maybeSendAppend_frame (r : Raft) (toId : Nat) (sie : Bool) (b : Bool) (r' : Raft)
    (h : r.maybeSendAppend toId sie = .ok (b, r')) :
    ∃ ms, r' = { r with msgs := ms } := by
  unfold Raft.maybeSendAppend at h
  cases hgp : r.getProgress toId with
  | none => rw [hgp] at h; cases h
  | some pr =>
    rw [hgp] at h
    dsimp only at h
    split at h
    · cases h; exact ⟨r.msgs, rfl⟩
    · split at h
      · split at h
        · cases h
        · cases h; exact ⟨_, rfl⟩
      · cases h; exact ⟨_, rfl⟩

theorem sendAppend_frame (r : Raft) (toId : Nat) (r' : Raft)
    (h : r.sendAppend toId = .ok r') : ∃ ms, r' = { r with msgs := ms } := by
  unfold Raft.sendAppend at h
  dsimp only at h
  rw [bind_ok_iff] at h
  obtain ⟨a, ha, hpure⟩ := h
  obtain ⟨b, r2⟩ := a
  simp only [pure, Except.pure, Except.ok.injEq] at hpure
  subst hpure
  exact maybeSendAppend_frame r toId true b r2 ha

theorem bcastAppend_frame (r : Raft) (r' : Raft)
    (h : r.bcastAppend = .ok r') : ∃ ms, r' = { r with msgs := ms } := by
  unfold Raft.bcastAppend at h
  have gen : ∀ (xs : List Nat) (r0 r1 : Raft),
      (xs.foldlM (fun acc id => if id = acc.id then pure acc else acc.sendAppend id) r0
        = .ok r1) → ∃ ms, r1 = { r0 with msgs := ms } := by
    intro xs
    induction xs with
    | nil =>
      intro r0 r1 h0
      simp only [List.foldlM_nil, pure, Except.pure, Except.ok.injEq] at h0
      subst h0
      exact ⟨r0.msgs, rfl⟩
    | cons x tl ih =>
      intro r0 r1 h0
      rw [List.foldlM_cons, bind_ok_iff] at h0
      obtain ⟨a, ha, hrest⟩ := h0
      obtain ⟨ms1, hms1⟩ := ih a r1 hrest
      by_cases hx : x = r0.id
      · rw [if_pos hx] at ha
        simp only [pure, Except.pure, Except.ok.injEq] at ha
        subst ha
        exact ⟨ms1, hms1⟩
      · rw [if_neg hx] at ha
        obtain ⟨ms0, hms0⟩ := sendAppend_frame r0 x a ha
        subst hms0
        exact ⟨ms1, hms1⟩
  exact gen _ r r' h

/-- C10: `reset` called at the node's current term (as `becomeLeader` does
via `reset(r.Term)`) leaves `Term` and `Vote` unchanged; `Vote` is cleared
to `None` only when the term strictly changes; and a successful
`becomeLeader` preserves both `Term` and the recorded `Vote`. -/
theorem C10_reset_same_term_keeps_vote (r : Raft) (t : Nat) (r' : Raft) :
    ((r.reset r.Term).Term = r.Term ∧ (r.reset r.Term).Vote = r.Vote) ∧
    (t ≠ r.Term → (r.reset t).Term = t ∧ (r.reset t).Vote = 0) ∧
    (r.becomeLeader = .ok r' → r'.Term = r.Term ∧ r'.Vote = r.Vote) := by
  have hne : ¬ (r.Term ≠ r.Term) := fun hh => hh rfl
  refine ⟨?_, ?_, ?_⟩
  · unfold Raft.reset
    rw [if_neg hne]
    exact ⟨rfl, rfl⟩
  · intro ht
    have hcond : r.Term ≠ t := fun hh => ht hh.symm
    unfold Raft.reset
    rw [if_pos hcond]
    exact ⟨rfl, rfl⟩
  · intro h
    unfold Raft.becomeLeader at h
    split at h
    · cases h
    · dsimp only at h
      have hf := appendEntry_frame _ _ _ h
      have h1 : (r.reset r.Term).Term = r.Term := by
        unfold Raft.reset
        rw [if_neg hne]
        rfl
      have h2 : (r.reset r.Term).Vote = r.Vote := by
        unfold Raft.reset
        rw [if_neg hne]
        rfl
      exact ⟨hf.1.trans h1, hf.2.1.trans h2⟩

/-- The single-node scenario: cluster `{1}`, id 1, fresh storage,
`election_tick = 10`, `heartbeat_tick = 1`; the election-timeout jitter is
pinned to zero (spec §9: randomness is injected and tests pin it), so the
randomized election timeout equals `election_tick`. -/
def c9Config : Config :=
  { ID := 1, peers := [1], ElectionTick := 10, HeartbeatTick := 1 }

/-- C9: in a single-node cluster `{1}` with no prior state, after
`election_tick` (= 10) calls of `tick` the node is leader at term 1, its
log holds exactly one empty normal entry at index 1 with term 1, and
`committed = 1`. -/
theorem C9_single_node_election :
    ((newRaft c9Config).bind (tickN 10)).map (fun rr =>
      (rr.State, rr.Term, rr.raftLog.LastIndex, rr.raftLog.entries, rr.raftLog.committed)) =
    .ok (.StateLeader, 1, 1,
      [{ EntryType := .EntryNormal, Term := 1, Index := 1, Data := [] }], 1) := by
  rfl

/-- The `MsgRequestVote` arm of `Step` for a message at the node's own
term, fully characterized. -/
theorem requestVote_at_own_term (r : Raft) (m : pb.Message)
    (hmt : m.MsgType = .MsgRequestVote) (hterm : m.Term = r.Term) :
    r.Step m = .ok (
      if (r.Vote = m.From ∨ (r.Vote = 0 ∧ r.Lead = 0)) ∧
          r.raftLog.isUpToDate m.Index m.LogTerm then
        ({ r.send { To := m.From, Term := m.Term, MsgType := .MsgRequestVoteResponse } with
            electionElapsed := 0, Vote := m.From }, none)
      else
        (r.send { To := m.From, Term := r.Term, MsgType := .MsgRequestVoteResponse,
                  Reject := true }, none)) := by
  unfold Raft.Step
  have h1 : ¬(m.Term ≠ 0 ∧ m.Term < r.Term) := by omega
  rw [if_neg h1]
  dsimp only
  have h2 : ¬(m.Term ≠ 0 ∧ r.Term < m.Term) := by omega
  rw [if_neg h2]
  unfold stepMain
  rw [hmt]
  dsimp only
  split
  · rfl
  · rfl

/-- A follower at term 2 with no vote cast but a recognized leader (3),
and an up-to-date candidate (2): inputs of the C3 counterexample. -/
def c3xr : Raft :=
  { id := 1, Term := 2, Vote := 0, Lead := 3, State := .StateFollower,
    Prs := [(1, { Next := 1 }), (2, { Next := 1 }), (3, { Next := 1 })] }

/-- The RequestVote message of the C3 counterexample. -/
def c3xm : pb.Message := { MsgType := .MsgRequestVote, From := 2, To := 1, Term := 2 }

/-- C3 counterexample: the claim's grant condition holds (no vote cast this
term, candidate up to date, message at own term), yet the node sends a
rejection and records no vote — because the code additionally requires
`Lead = None` when no vote was cast. -/
theorem C3_counterexample :
    c3xr.Vote = 0 ∧
    c3xr.raftLog.isUpToDate c3xm.Index c3xm.LogTerm = true ∧
    c3xm.Term = c3xr.Term ∧
    c3xr.Step c3xm =
      .ok (c3xr.send { To := 2, Term := 2, MsgType := .MsgRequestVoteResponse,
                       Reject := true }, none) := by
  refine ⟨rfl, rfl, rfl, rfl⟩

/-- C3 (amended): for a node stepping a RequestVote at its own term, the
vote is granted — a non-reject response is sent, the vote is recorded and
the election timer reset — if and only if (the recorded vote already
equals the candidate, OR no vote has been cast this term AND no leader is
recognized this term) AND the candidate's log is at least as up-to-date;
otherwise a reject response is sent and the state is otherwise unchanged.
(The original claim lacked the "no leader recognized" conjunct.) -/
theorem C3_vote_grant_rule (r : Raft) (m : pb.Message)
    (hmt : m.MsgType = .MsgRequestVote) (hterm : m.Term = r.Term) :
    r.Step m = .ok (
      if (r.Vote = m.From ∨ (r.Vote = 0 ∧ r.Lead = 0)) ∧
          r.raftLog.isUpToDate m.Index m.LogTerm then
        ({ r.send { To := m.From, Term := m.Term, MsgType := .MsgRequestVoteResponse } with
            electionElapsed := 0, Vote := m.From }, none)
      else
        (r.send { To := m.From, Term := r.Term, MsgType := .MsgRequestVoteResponse,
                  Reject := true }, none)) :=
  requestVote_at_own_term r m hmt hterm

/-- A bare node granting a vote: witness inputs for C3. -/
def c3wr : Raft := { id := 1, Term := 2 }

/-- The witness RequestVote message for C3. -/
def c3wm : pb.Message := { MsgType := .MsgRequestVote, From := 2, Term := 2 }

/-- C3 witness: the vote rule evaluated at a concrete grantable input. -/
theorem C3_vote_grant_rule_witness :
    c3wr.Step c3wm = .ok (
      if (c3wr.Vote = c3wm.From ∨ (c3wr.Vote = 0 ∧ c3wr.Lead = 0)) ∧
          c3wr.raftLog.isUpToDate c3wm.Index c3wm.LogTerm then
        ({ c3wr.send { To := c3wm.From, Term := c3wm.Term, MsgType := .MsgRequestVoteResponse } with
            electionElapsed := 0, Vote := c3wm.From }, none)
      else
        (c3wr.send { To := c3wm.From, Term := c3wr.Term, MsgType := .MsgRequestVoteResponse, Reject := true },
         none)) :=
  C3_vote_grant_rule c3wr c3wm rfl rfl

/-- A follower at term 5 with leader 2 and no vote cast: inputs of the C4
counterexample. -/
def c4xr : Raft :=
  { id := 1, Term := 5, Vote := 0, Lead := 2, State := .StateFollower,
    Prs := [(1, { Next := 1 }), (2, { Next := 1 }), (3, { Next := 1 })] }

/-- The RequestVote of the C4 counterexample: it carries the
CampaignTransfer context. -/
def c4xm : pb.Message :=
  { MsgType := .MsgRequestVote, From := 3, To := 1, Term := 5,
    Context := some .campaignTransfer }

/-- C4 counterexample: a RequestVote carrying the CampaignTransfer context
reaches a node that recognizes a leader this term and has not voted, with
an up-to-date candidate; the claim predicts a granted vote, but the code
rejects — the context does not bypass the "has leader" check. -/
theorem C4_counterexample :
    c4xm.Context = some .campaignTransfer ∧
    c4xr.Vote = 0 ∧
    c4xr.Lead ≠ 0 ∧
    c4xr.raftLog.isUpToDate c4xm.Index c4xm.LogTerm = true ∧
    c4xm.Term = c4xr.Term ∧
    c4xr.Step c4xm =
      .ok (c4xr.send { To := 3, Term := 5, MsgType := .MsgRequestVoteResponse,
                       Reject := true }, none) := by
  refine ⟨rfl, rfl, by decide, rfl, rfl, rfl⟩

/-- C4 (amended): the vote handler never inspects the message context, so
the CampaignTransfer context does NOT bypass the "has leader" check: a
node that currently recognizes a leader in this term and has not yet voted
rejects the vote even for an up-to-date candidate carrying that context. -/
theorem C4_transfer_context_ignored (r : Raft) (m : pb.Message)
    (hmt : m.MsgType = .MsgRequestVote) (hterm : m.Term = r.Term)
    (_hctx : m.Context = some .campaignTransfer)
    (hv : r.Vote = 0) (hfrom : m.From ≠ 0) (hlead : r.Lead ≠ 0) :
    r.Step m = .ok (r.send { To := m.From, Term := r.Term,
                             MsgType := .MsgRequestVoteResponse, Reject := true }, none) := by
  have h := requestVote_at_own_term r m hmt hterm
  have hnc : ¬((r.Vote = m.From ∨ (r.Vote = 0 ∧ r.Lead = 0)) ∧
      r.raftLog.isUpToDate m.Index m.LogTerm = true) := by
    rintro ⟨hcv | hcv, _⟩
    · exact hfrom ((hv ▸ hcv).symm)
    · exact hlead hcv.2
  rw [if_neg hnc] at h
  exact h

/-- C4 witness inputs: a follower with a leader, stepped with a
transfer-context RequestVote. -/
def c4wr : Raft := { id := 1, Term := 7, Vote := 0, Lead := 9 }

/-- The witness message for C4. -/
def c4wm : pb.Message :=
  { MsgType := .MsgRequestVote, From := 4, Term := 7, Context := some .campaignTransfer }

/-- C4 witness: the amended rule evaluated at a concrete input. -/
theorem C4_transfer_context_ignored_witness :
    c4wr.Step c4wm = .ok (c4wr.send { To := c4wm.From, Term := c4wr.Term,
                                      MsgType := .MsgRequestVoteResponse, Reject := true }, none) :=
  C4_transfer_context_ignored c4wr c4wm rfl rfl rfl rfl (by decide) (by decide)

/-- The follower of the C5 counterexample: empty log (`last_index = 0`). -/
def c5xr : Raft :=
  { id := 1, Term := 3, Lead := 2, State := .StateFollower,
    Prs := [(1, { Next := 1 }), (2, { Next := 1 })] }

/-- The heartbeat of the C5 counterexample: its commit (1) exceeds the
follower's last index (0). -/
def c5xm : pb.Message := { MsgType := .MsgHeartbeat, From := 2, To := 1, Term := 3, Commit := 1 }

/-- C5 counterexample: the claim says the commit update "never faults even
when msg.commit exceeds the follower's last log index" because a min with
last_index is taken; but `handleHeartbeat` passes `msg.commit` to
`commit_to` unguarded, and the step panics. -/
theorem C5_counterexample :
    c5xr.raftLog.LastIndex < c5xm.Commit ∧
    c5xm.Term = c5xr.Term ∧
    c5xr.State = .StateFollower ∧
    c5xr.Step c5xm = .error .commitToOutOfRange := by
  refine ⟨by decide, rfl, rfl, rfl⟩

/-- C5 (amended): a follower handling a Heartbeat at its own term updates
the commit cursor via `commit_to(msg.commit)` — with no min against its
last index, so the step faults whenever `msg.commit > last_index` exceeds
`committed`; when `msg.commit ≤ last_index` the commit cursor becomes
`max(committed, msg.commit)` and a HeartbeatResponse echoing the context
is sent to the sender. -/
theorem C5_heartbeat_commit (r : Raft) (m : pb.Message)
    (hst : r.State = .StateFollower) (hmt : m.MsgType = .MsgHeartbeat)
    (hterm : m.Term = r.Term) (hcm : m.Commit ≤ r.raftLog.LastIndex) :
    r.Step m = .ok (
      ({ r with
          electionElapsed := 0, Lead := m.From,
          raftLog := { r.raftLog with committed := max r.raftLog.committed m.Commit } } : Raft).send
        { To := m.From, MsgType := .MsgHeartbeatResponse, Context := m.Context }, none) := by
  unfold Raft.Step
  have h1 : ¬(m.Term ≠ 0 ∧ m.Term < r.Term) := by omega
  rw [if_neg h1]
  dsimp only
  have h2 : ¬(m.Term ≠ 0 ∧ r.Term < m.Term) := by omega
  rw [if_neg h2]
  unfold stepMain
  rw [hmt, hst]
  unfold stepFollower
  rw [hmt]
  dsimp only
  unfold Raft.handleHeartbeat
  by_cases hlt : r.raftLog.committed < m.Commit
  · have hmax : max r.raftLog.committed m.Commit = m.Commit := by omega
    rw [RaftLog.commitTo, if_pos hlt, if_neg (by omega : ¬ r.raftLog.LastIndex < m.Commit),
       hmax, hst]
    rfl
  · have hmax : max r.raftLog.committed m.Commit = r.raftLog.committed := by omega
    rw [RaftLog.commitTo, if_neg hlt, hmax, hst]
    rfl

/-- C5 witness inputs: a follower with one committed entry receiving a
heartbeat at commit 1. -/
def c5wr : Raft :=
  { id := 1, Term := 2, Lead := 2, State := .StateFollower,
    raftLog := { entries := [{ EntryType := .EntryNormal, Term := 2, Index := 1 }] } }

/-- The witness heartbeat for C5. -/
def c5wm : pb.Message := { MsgType := .MsgHeartbeat, From := 2, To := 1, Term := 2, Commit := 1 }

/-- C5 witness: the amended heartbeat rule evaluated at a concrete input. -/
theorem C5_heartbeat_commit_witness :
    c5wr.Step c5wm = .ok (
      ({ c5wr with
          electionElapsed := 0, Lead := c5wm.From,
          raftLog := { c5wr.raftLog with committed := max c5wr.raftLog.committed c5wm.Commit } } : Raft).send
        { To := c5wm.From, MsgType := .MsgHeartbeatResponse, Context := c5wm.Context }, none) :=
  C5_heartbeat_commit c5wr c5wm rfl rfl rfl (by decide)

/-- C6: a follower handling an AppendEntries message at its own term:
if the message's previous index is below `committed` it replies success at
`committed`; otherwise it runs `maybe_append` and on success replies with
the new last index, while on failure it replies with `reject = true` and
`reject_hint` equal to its own last index. -/
theorem C6_follower_append (r : Raft) (m : pb.Message)
    (hst : r.State = .StateFollower) (hmt : m.MsgType = .MsgAppend)
    (hterm : m.Term = r.Term) :
    (m.Index < r.raftLog.committed →
      r.Step m = .ok (({ r with electionElapsed := 0, Lead := m.From } : Raft).send
        { To := m.From, MsgType := .MsgAppendResponse, Index := r.raftLog.committed },
        none)) ∧
    (∀ n log', ¬ m.Index < r.raftLog.committed →
      r.raftLog.maybeAppend m.Index m.LogTerm m.Commit m.Entries = .ok (some (n, log')) →
      r.Step m = .ok
        (({ r with electionElapsed := 0, Lead := m.From, raftLog := log' } : Raft).send
          { To := m.From, MsgType := .MsgAppendResponse, Index := n }, none)) ∧
    (¬ m.Index < r.raftLog.committed →
      r.raftLog.maybeAppend m.Index m.LogTerm m.Commit m.Entries = .ok none →
      r.Step m = .ok (({ r with electionElapsed := 0, Lead := m.From } : Raft).send
        { To := m.From, MsgType := .MsgAppendResponse, Index := m.Index,
          Reject := true, RejectHint := r.raftLog.LastIndex }, none)) := by
  have hstep : r.Step m =
      (({ r with electionElapsed := 0, Lead := m.From } : Raft).handleAppendEntries m) >>=
        (fun a => pure (a, none)) := by
    unfold Raft.Step
    rw [if_neg (by omega : ¬(m.Term ≠ 0 ∧ m.Term < r.Term))]
    dsimp only
    rw [if_neg (by omega : ¬(m.Term ≠ 0 ∧ r.Term < m.Term))]
    unfold stepMain
    rw [hmt, hst]
    unfold stepFollower
    rw [hmt, hst]
  refine ⟨?_, ?_, ?_⟩
  · intro hlt
    rw [hstep]
    unfold Raft.handleAppendEntries
    dsimp only
    rw [if_pos hlt]
    rfl
  · intro n log' hge hma
    rw [hstep]
    unfold Raft.handleAppendEntries
    dsimp only
    rw [if_neg hge, hma]
    rfl
  · intro hge hma
    rw [hstep]
    unfold Raft.handleAppendEntries
    dsimp only
    rw [if_neg hge, hma]
    rfl

/-- C6 witness inputs: a bare follower receiving one entry at (1,1). -/
def c6wr : Raft := { id := 1, Term := 1, Lead := 2, State := .StateFollower }

/-- The witness AppendEntries message for C6. -/
def c6wm : pb.Message :=
  { MsgType := .MsgAppend, From := 2, To := 1, Term := 1, LogTerm := 0, Index := 0,
    Entries := [{ EntryType := .EntryNormal, Term := 1, Index := 1 }], Commit := 1 }

/-- C6 witness: the follower-append characterization at a concrete input. -/
theorem C6_follower_append_witness :
    (c6wm.Index < c6wr.raftLog.committed →
      c6wr.Step c6wm = .ok (({ c6wr with electionElapsed := 0, Lead := c6wm.From } : Raft).send
        { To := c6wm.From, MsgType := .MsgAppendResponse, Index := c6wr.raftLog.committed },
        none)) ∧
    (∀ n log', ¬ c6wm.Index < c6wr.raftLog.committed →
      c6wr.raftLog.maybeAppend c6wm.Index c6wm.LogTerm c6wm.Commit c6wm.Entries
        = .ok (some (n, log')) →
      c6wr.Step c6wm = .ok
        (({ c6wr with electionElapsed := 0, Lead := c6wm.From, raftLog := log' } : Raft).send
          { To := c6wm.From, MsgType := .MsgAppendResponse, Index := n }, none)) ∧
    (¬ c6wm.Index < c6wr.raftLog.committed →
      c6wr.raftLog.maybeAppend c6wm.Index c6wm.LogTerm c6wm.Commit c6wm.Entries = .ok none →
      c6wr.Step c6wm = .ok (({ c6wr with electionElapsed := 0, Lead := c6wm.From } : Raft).send
        { To := c6wm.From, MsgType := .MsgAppendResponse, Index := c6wm.Index,
          Reject := true, RejectHint := c6wr.raftLog.LastIndex }, none)) :=
  C6_follower_append c6wr c6wm rfl rfl rfl

theorem insertionSort_desc_eq_reverse (ms : List Nat) :
    List.insertionSort (· ≥ ·) ms = (List.insertionSort (· ≤ ·) ms).reverse := by
  apply List.eq_of_perm_of_sorted (r := (· ≥ ·))
  · exact ((List.perm_insertionSort _ ms).trans
      (List.perm_insertionSort (· ≤ ·) ms).symm).trans (List.reverse_perm _).symm
  · exact List.sorted_insertionSort _ ms
  · rw [List.Sorted, List.pairwise_reverse]
    exact List.sorted_insertionSort (· ≤ ·) ms

theorem desc_getD (ms : List Nat) (q : Nat) (h1 : 1 ≤ q) (h2 : q ≤ ms.length) :
    (List.insertionSort (· ≥ ·) ms).getD (q - 1) 0 =
    (List.insertionSort (· ≤ ·) ms).getD (ms.length - q) 0 := by
  rw [insertionSort_desc_eq_reverse]
  have hlen : (List.insertionSort (· ≤ ·) ms).length = ms.length :=
    List.length_insertionSort _ _
  have hq1 : q - 1 < (List.insertionSort (· ≤ ·) ms).reverse.length := by
    rw [List.length_reverse, hlen]; omega
  have hq2 : ms.length - q < (List.insertionSort (· ≤ ·) ms).length := by
    rw [hlen]; omega
  rw [List.getD_eq_getElem _ _ hq1, List.getD_eq_getElem _ _ hq2, List.getElem_reverse]
  have hidx : (List.insertionSort (· ≤ ·) ms).length - 1 - (q - 1) = ms.length - q := by
    rw [hlen]; omega
  simp only [hidx]

/-- Modelled from the spec: the claim's commit candidate — the `Match`
values of all members sorted descending, taken at position `quorum − 1`. -/
def specCommitCandidate (r : Raft) : Nat :=
  (List.insertionSort (· ≥ ·) (r.Prs.map (fun p => p.2.Match))).getD (r.quorum - 1) 0

/-- C2: in a nonempty membership, the leader's `maybeCommit` hands exactly
the spec's candidate — the quorum-th largest `Match` (descending sort,
position `quorum − 1`) — to the log's `maybe_commit`, and the commit index
advances if and only if that candidate exceeds `committed` and the entry
at that index carries the current term (in which case `committed` becomes
the candidate). -/
theorem C2_maybeCommit_quorum (r : Raft) (hne : r.Prs ≠ []) :
    (r.maybeCommit = (r.raftLog.maybeCommit (specCommitCandidate r) r.Term).map
      (fun p => (p.1, { r with raftLog := p.2 }))) ∧
    (∀ b r2, r.maybeCommit = .ok (b, r2) →
      (b = true ↔ r.raftLog.committed < specCommitCandidate r ∧
        r.raftLog.termOrZero (specCommitCandidate r) = r.Term) ∧
      r2.raftLog.committed =
        (if b then specCommitCandidate r else r.raftLog.committed)) := by
  have hlenpos : 0 < r.Prs.length := List.length_pos.mpr hne
  have hq1 : 1 ≤ r.quorum := by unfold Raft.quorum; omega
  have hq2 : r.quorum ≤ (r.Prs.map (fun p => p.2.Match)).length := by
    rw [List.length_map]
    unfold Raft.quorum
    omega
  have hc : (List.insertionSort (· ≤ ·) (r.Prs.map (fun p => p.2.Match))).getD
      ((List.insertionSort (· ≤ ·) (r.Prs.map (fun p => p.2.Match))).length - r.quorum) 0
      = specCommitCandidate r := by
    rw [List.length_insertionSort]
    exact (desc_getD _ _ hq1 hq2).symm
  have heq : r.maybeCommit = (r.raftLog.maybeCommit (specCommitCandidate r) r.Term).map
      (fun p => (p.1, { r with raftLog := p.2 })) := by
    unfold Raft.maybeCommit
    dsimp only
    rw [hc]
    cases hmc : r.raftLog.maybeCommit (specCommitCandidate r) r.Term with
    | error f => simp [Except.map, Bind.bind, Except.bind]
    | ok p =>
      obtain ⟨b, l'⟩ := p
      simp [Except.map, Bind.bind, Except.bind, pure, Except.pure]
  refine ⟨heq, ?_⟩
  intro b r2 h
  rw [heq] at h
  unfold RaftLog.maybeCommit at h
  split at h
  · rename_i hcond
    unfold RaftLog.commitTo at h
    rw [if_pos hcond.1] at h
    split at h
    · simp [Except.map, Bind.bind, Except.bind] at h
    · simp only [Except.map, Bind.bind, Except.bind, pure, Except.pure,
        Except.ok.injEq, Prod.mk.injEq] at h
      obtain ⟨hb, hr2⟩ := h
      subst hb
      subst hr2
      exact ⟨by simp [hcond], rfl⟩
  · rename_i hcond
    simp only [Except.map, pure, Except.pure, Except.ok.injEq, Prod.mk.injEq] at h
    obtain ⟨hb, hr2⟩ := h
    subst hb
    subst hr2
    refine ⟨?_, rfl⟩
    constructor
    · intro hfalse
      cases hfalse
    · intro hcc
      exact absurd hcc hcond

/-- Witness inputs for C2: a three-member leader with matches 3, 1, 2. -/
def c2wr : Raft :=
  { id := 1, Term := 1, State := .StateLeader,
    raftLog := { entries := [{ EntryType := .EntryNormal, Term := 1, Index := 1 },
                            { EntryType := .EntryNormal, Term := 1, Index := 2 },
                            { EntryType := .EntryNormal, Term := 1, Index := 3 }] },
    Prs := [(1, { Match := 3, Next := 4 }), (2, { Match := 1, Next := 2 }),
            (3, { Match := 2, Next := 3 })] }

/-- C2 witness: the quorum-commit characterization at a concrete leader. -/
theorem C2_maybeCommit_quorum_witness :
    (c2wr.maybeCommit = (c2wr.raftLog.maybeCommit (specCommitCandidate c2wr) c2wr.Term).map
      (fun p => (p.1, { c2wr with raftLog := p.2 }))) ∧
    (∀ b r2, c2wr.maybeCommit = .ok (b, r2) →
      (b = true ↔ c2wr.raftLog.committed < specCommitCandidate c2wr ∧
        c2wr.raftLog.termOrZero (specCommitCandidate c2wr) = c2wr.Term) ∧
      r2.raftLog.committed =
        (if b then specCommitCandidate c2wr else c2wr.raftLog.committed)) :=
  C2_maybeCommit_quorum c2wr (by decide)

theorem pt_cons (li ap pci i : Nat) (e : pb.Entry) (rest : List pb.Entry) :
    proposeTransform li ap pci i (e :: rest) =
      if e.EntryType = .EntryConfChange then
        if ap < pci then
          (({ EntryType := .EntryNormal } : pb.Entry) ::
            (proposeTransform li ap pci (i+1) rest).1,
           (proposeTransform li ap pci (i+1) rest).2)
        else
          (e :: (proposeTransform li ap (li + i + 1) (i+1) rest).1,
           (proposeTransform li ap (li + i + 1) (i+1) rest).2)
      else
        (e :: (proposeTransform li ap pci (i+1) rest).1,
         (proposeTransform li ap pci (i+1) rest).2) := by
  conv_lhs => unfold proposeTransform

theorem pt_nil (li ap pci i : Nat) : proposeTransform li ap pci i [] = ([], pci) := rfl

theorem pt_length (li ap : Nat) :
    ∀ (es : List pb.Entry) (pci i : Nat),
      (proposeTransform li ap pci i es).1.length = es.length := by
  intro es
  induction es with
  | nil => intro pci i; rfl
  | cons e tl ih =>
    intro pci i
    rw [pt_cons]
    split
    · split
      · simp [ih]
      · simp [ih]
    · simp [ih]

theorem pt_count_zero (li ap : Nat) :
    ∀ (es : List pb.Entry) (pci i : Nat), ap < pci →
      numOfPendingConf (proposeTransform li ap pci i es).1 = 0 := by
  intro es
  induction es with
  | nil => intro pci i _; rfl
  | cons e tl ih =>
    intro pci i hp
    rw [pt_cons]
    by_cases hcc : e.EntryType = .EntryConfChange
    · rw [if_pos hcc, if_pos hp]
      have h0 := ih pci (i+1) hp
      simp only [numOfPendingConf, List.countP_cons] at h0 ⊢
      simp [h0]
    · rw [if_neg hcc]
      have h0 := ih pci (i+1) hp
      simp only [numOfPendingConf, List.countP_cons] at h0 ⊢
      simp [h0, hcc]

theorem pt_count_le_one (li ap : Nat) (hli : ap ≤ li) :
    ∀ (es : List pb.Entry) (pci i : Nat),
      numOfPendingConf (proposeTransform li ap pci i es).1 ≤ 1 := by
  intro es
  induction es with
  | nil => intro pci i; exact Nat.zero_le 1
  | cons e tl ih =>
    intro pci i
    rw [pt_cons]
    by_cases hcc : e.EntryType = .EntryConfChange
    · rw [if_pos hcc]
      by_cases hp : ap < pci
      · rw [if_pos hp]
        have h0 := ih pci (i+1)
        simp only [numOfPendingConf, List.countP_cons] at h0 ⊢
        simpa using h0
      · rw [if_neg hp]
        have h0 := pt_count_zero li ap tl (li + i + 1) (i+1) (by omega)
        simp only [numOfPendingConf, List.countP_cons] at h0 ⊢
        simp [h0, hcc]
    · rw [if_neg hcc]
      have h0 := ih pci (i+1)
      simp only [numOfPendingConf, List.countP_cons] at h0 ⊢
      simpa [hcc] using h0

theorem pt_spec (li ap : Nat) :
    ∀ (es : List pb.Entry) (pci i j : Nat), j < es.length →
      (((es.getD j {}).EntryType = .EntryConfChange →
         (ap < (proposeTransform li ap pci i (es.take j)).2 →
           (proposeTransform li ap pci i es).1.getD j {} =
             ({ EntryType := .EntryNormal } : pb.Entry)) ∧
         (¬ ap < (proposeTransform li ap pci i (es.take j)).2 →
           (proposeTransform li ap pci i es).1.getD j {} = es.getD j {} ∧
           (proposeTransform li ap pci i (es.take (j+1))).2 = li + (i + j) + 1)) ∧
       ((es.getD j {}).EntryType ≠ .EntryConfChange →
         (proposeTransform li ap pci i es).1.getD j {} = es.getD j {} ∧
         (proposeTransform li ap pci i (es.take (j+1))).2 =
           (proposeTransform li ap pci i (es.take j)).2)) := by
  intro es
  induction es with
  | nil => intro pci i j hj; exact absurd hj (Nat.not_lt_zero j)
  | cons e tl ih =>
    intro pci i j hj
    cases j with
    | zero =>
      simp only [List.take_zero, pt_nil, List.getD_cons_zero, List.take_succ_cons]
      constructor
      · intro hcc
        constructor
        · intro hp
          rw [pt_cons, if_pos hcc, if_pos hp]
          rfl
        · intro hp
          rw [pt_cons, if_pos hcc, if_neg hp]
          refine ⟨rfl, ?_⟩
          rw [pt_cons, if_pos hcc, if_neg hp]
          simp [List.take_zero, pt_nil]
      · intro hcc
        rw [pt_cons, if_neg hcc]
        refine ⟨rfl, ?_⟩
        rw [pt_cons, if_neg hcc]
        simp [List.take_zero, pt_nil]
    | succ j =>
      have hj' : j < tl.length := by simpa using hj
      simp only [List.take_succ_cons, List.getD_cons_succ, pt_cons]
      by_cases hcc0 : e.EntryType = .EntryConfChange
      · simp only [if_pos hcc0]
        by_cases hp0 : ap < pci
        · simp only [if_pos hp0, List.getD_cons_succ]
          have h := ih pci (i+1) j hj'
          rw [show li + (i + (j+1)) + 1 = li + ((i+1) + j) + 1 by omega]
          exact h
        · simp only [if_neg hp0, List.getD_cons_succ]
          have h := ih (li + i + 1) (i+1) j hj'
          rw [show li + (i + (j+1)) + 1 = li + ((i+1) + j) + 1 by omega]
          exact h
      · simp only [if_neg hcc0, List.getD_cons_succ]
        have h := ih pci (i+1) j hj'
        rw [show li + (i + (j+1)) + 1 = li + ((i+1) + j) + 1 by omega]
        exact h

theorem log_maybeCommit_entries (l : RaftLog) (mi t : Nat) (b : Bool) (l2 : RaftLog)
    (h : l.maybeCommit mi t = .ok (b, l2)) : l2.entries = l.entries := by
  unfold RaftLog.maybeCommit at h
  split at h
  · rw [bind_ok_iff] at h
    obtain ⟨l', hct, hpure⟩ := h
    simp only [pure, Except.pure, Except.ok.injEq, Prod.mk.injEq] at hpure
    obtain ⟨_, hl2⟩ := hpure
    subst hl2
    unfold RaftLog.commitTo at hct
    split at hct
    · split at hct
      · cases hct
      · cases hct; rfl
    · cases hct; rfl
  · simp only [pure, Except.pure, Except.ok.injEq, Prod.mk.injEq] at h
    obtain ⟨_, hl2⟩ := h
    subst hl2
    rfl

theorem raft_maybeCommit_entries (r : Raft) (b : Bool) (r2 : Raft)
    (h : r.maybeCommit = .ok (b, r2)) : r2.raftLog.entries = r.raftLog.entries := by
  unfold Raft.maybeCommit at h
  dsimp only at h
  rw [bind_ok_iff] at h
  obtain ⟨p, hp, hpure⟩ := h
  obtain ⟨b', l'⟩ := p
  simp only [pure, Except.pure, Except.ok.injEq, Prod.mk.injEq] at hpure
  obtain ⟨_, hr2⟩ := hpure
  subst hr2
  exact log_maybeCommit_entries _ _ _ _ _ hp

theorem append_fresh (l : RaftLog) (es : List pb.Entry) (n : Nat) (l' : RaftLog)
    (hh : ∀ e ts, es = e :: ts → e.Index = l.LastIndex + 1)
    (h : l.append es = .ok (n, l')) : l'.entries = l.entries ++ es := by
  cases es with
  | nil =>
    unfold RaftLog.append at h
    cases h
    simp
  | cons e tl =>
    unfold RaftLog.append at h
    dsimp only at h
    split at h
    · cases h
    · cases h
      unfold RaftLog.truncAppend
      dsimp only
      have he : e.Index = l.LastIndex + 1 := hh e tl rfl
      rw [he]
      have hidx : l.LastIndex + 1 - l.snapIndex - 1 = l.entries.length := by
        unfold RaftLog.LastIndex
        omega
      rw [hidx, List.take_length]

theorem appendEntry_entries (r : Raft) (es : List pb.Entry) (r' : Raft)
    (h : r.appendEntry es = .ok r') :
    r'.raftLog.entries = r.raftLog.entries ++
      es.enum.map (fun p =>
        { p.2 with Term := r.Term, Index := r.raftLog.LastIndex + 1 + p.1 }) := by
  unfold Raft.appendEntry at h
  dsimp only at h
  rw [bind_ok_iff] at h
  obtain ⟨a, ha, h⟩ := h
  obtain ⟨li2, log'⟩ := a
  have hfresh : log'.entries = r.raftLog.entries ++
      es.enum.map (fun p =>
        { p.2 with Term := r.Term, Index := r.raftLog.LastIndex + 1 + p.1 }) := by
    refine append_fresh _ _ _ _ ?_ ha
    intro e ts hs
    cases es with
    | nil => simp [List.enum] at hs
    | cons e0 t0 =>
      rw [List.enum_cons] at hs
      simp only [List.map_cons, List.cons.injEq] at hs
      obtain ⟨he, _⟩ := hs
      rw [← he]
  dsimp only at h
  split at h
  · cases h
  · rw [bind_ok_iff] at h
    obtain ⟨p, hp, hpure⟩ := h
    obtain ⟨b, r2⟩ := p
    simp only [pure, Except.pure, Except.ok.injEq] at hpure
    subst hpure
    have hent := raft_maybeCommit_entries _ b r2 hp
    rw [hent]
    exact hfresh

/-- The conf-change gate of a proposed batch as evaluated from state `r`:
`proposeTransform` at the leader's last index, applied cursor and current
`PendingConfIndex`, starting at batch position 0. -/
def proposeGate (r : Raft) (es : List pb.Entry) : List pb.Entry × Nat :=
  proposeTransform r.raftLog.LastIndex r.raftLog.applied r.PendingConfIndex 0 es

/-- C8: for a leader handling `MsgPropose` (a local message) with a
non-empty batch, itself in the membership and no leadership transfer in
progress: (1) the stepped state's `PendingConfIndex` is the gate's final
value and the appended log tail is exactly the gated batch stamped with the
leader's term at indices `last_index + 1 + j`; (2) pointwise, a conf-change
entry at batch position `j` is replaced by an empty normal entry exactly
when the running `PendingConfIndex` exceeds `applied`, an accepted
conf-change sets the running `PendingConfIndex` to `last_index + 1 + j` —
the log index at which it is appended — and other entries pass through
leaving it unchanged; (3) so with `applied ≤ last_index` at most one
conf-change entry survives the batch. -/
theorem C8_conf_change_gate (r : Raft) (m : pb.Message)
    (hst : r.State = .StateLeader) (hmt : m.MsgType = .MsgPropose) (hterm : m.Term = 0)
    (hne : ¬ m.Entries.isEmpty) (hself : ¬ (r.getProgress r.id).isNone)
    (htr : r.leadTransferee = 0) :
    (∀ rr e, r.Step m = .ok (rr, e) →
      rr.PendingConfIndex = (proposeGate r m.Entries).2 ∧
      rr.raftLog.entries = r.raftLog.entries ++
        (proposeGate r m.Entries).1.enum.map
          (fun p => { p.2 with Term := r.Term, Index := r.raftLog.LastIndex + 1 + p.1 })) ∧
    (∀ j, j < m.Entries.length →
      (((m.Entries.getD j {}).EntryType = .EntryConfChange →
         (r.raftLog.applied < (proposeGate r (m.Entries.take j)).2 →
           (proposeGate r m.Entries).1.getD j {} =
             ({ EntryType := .EntryNormal } : pb.Entry)) ∧
         (¬ r.raftLog.applied < (proposeGate r (m.Entries.take j)).2 →
           (proposeGate r m.Entries).1.getD j {} = m.Entries.getD j {} ∧
           (proposeGate r (m.Entries.take (j+1))).2 = r.raftLog.LastIndex + 1 + j)) ∧
       ((m.Entries.getD j {}).EntryType ≠ .EntryConfChange →
         (proposeGate r m.Entries).1.getD j {} = m.Entries.getD j {} ∧
         (proposeGate r (m.Entries.take (j+1))).2 =
           (proposeGate r (m.Entries.take j)).2))) ∧
    (r.raftLog.applied ≤ r.raftLog.LastIndex →
      numOfPendingConf (proposeGate r m.Entries).1 ≤ 1) := by
  refine ⟨?_, ?_, ?_⟩
  · intro rr e h
    unfold Raft.Step at h
    rw [if_neg (by omega : ¬(m.Term ≠ 0 ∧ m.Term < r.Term))] at h
    dsimp only at h
    rw [if_neg (by omega : ¬(m.Term ≠ 0 ∧ r.Term < m.Term))] at h
    unfold stepMain at h
    rw [hmt, hst] at h
    dsimp only at h
    unfold stepLeader at h
    rw [hmt] at h
    dsimp only at h
    rw [if_neg hne, if_neg hself,
        if_neg (show ¬ r.leadTransferee ≠ 0 from fun hh => hh htr)] at h
    unfold proposeGate
    rcases hX : proposeTransform r.raftLog.LastIndex r.raftLog.applied
      r.PendingConfIndex 0 m.Entries with ⟨es', pci'⟩
    rw [hX] at h
    dsimp only at h
    rw [bind_ok_iff] at h
    obtain ⟨a, ha, h⟩ := h
    rw [bind_ok_iff] at h
    obtain ⟨b2, hb2, hpure⟩ := h
    simp only [pure, Except.pure, Except.ok.injEq, Prod.mk.injEq] at hpure
    obtain ⟨hrr, _⟩ := hpure
    subst hrr
    obtain ⟨ms, hms⟩ := bcastAppend_frame a b2 hb2
    subst hms
    constructor
    · have hf := appendEntry_frame _ _ _ ha
      exact hf.2.2.1
    · have hent := appendEntry_entries _ _ _ ha
      exact hent
  · intro j hj
    have h := pt_spec r.raftLog.LastIndex r.raftLog.applied m.Entries
      r.PendingConfIndex 0 j hj
    unfold proposeGate
    rw [show r.raftLog.LastIndex + 1 + j = r.raftLog.LastIndex + (0 + j) + 1 by omega]
    exact h
  · intro hli
    unfold proposeGate
    exact pt_count_le_one _ _ hli m.Entries r.PendingConfIndex 0

/-- C8 witness inputs: a single-node leader at term 1 with one entry. -/
def c8wr : Raft :=
  { id := 1, Term := 1, State := .StateLeader, Lead := 1,
    raftLog := { entries := [{ EntryType := .EntryNormal, Term := 1, Index := 1 }],
                 committed := 1, applied := 1 },
    Prs := [(1, { Match := 1, Next := 2 })] }

/-- The witness proposal for C8: a single conf-change entry. -/
def c8wm : pb.Message :=
  { MsgType := .MsgPropose, From := 1, To := 1, Term := 0,
    Entries := [{ EntryType := .EntryConfChange }] }

/-- C8 witness: the conf-change gate characterization at a concrete
leader and proposal. -/
theorem C8_conf_change_gate_witness :
    (∀ rr e, c8wr.Step c8wm = .ok (rr, e) →
      rr.PendingConfIndex = (proposeGate c8wr c8wm.Entries).2 ∧
      rr.raftLog.entries = c8wr.raftLog.entries ++
        (proposeGate c8wr c8wm.Entries).1.enum.map
          (fun p =>
            { p.2 with Term := c8wr.Term, Index := c8wr.raftLog.LastIndex + 1 + p.1 })) ∧
    (∀ j, j < c8wm.Entries.length →
      (((c8wm.Entries.getD j {}).EntryType = .EntryConfChange →
         (c8wr.raftLog.applied < (proposeGate c8wr (c8wm.Entries.take j)).2 →
           (proposeGate c8wr c8wm.Entries).1.getD j {} =
             ({ EntryType := .EntryNormal } : pb.Entry)) ∧
         (¬ c8wr.raftLog.applied < (proposeGate c8wr (c8wm.Entries.take j)).2 →
           (proposeGate c8wr c8wm.Entries).1.getD j {} = c8wm.Entries.getD j {} ∧
           (proposeGate c8wr (c8wm.Entries.take (j+1))).2 =
             c8wr.raftLog.LastIndex + 1 + j)) ∧
       ((c8wm.Entries.getD j {}).EntryType ≠ .EntryConfChange →
         (proposeGate c8wr c8wm.Entries).1.getD j {} = c8wm.Entries.getD j {} ∧
         (proposeGate c8wr (c8wm.Entries.take (j+1))).2 =
           (proposeGate c8wr (c8wm.Entries.take j)).2))) ∧
    (c8wr.raftLog.applied ≤ c8wr.raftLog.LastIndex →
      numOfPendingConf (proposeGate c8wr c8wm.Entries).1 ≤ 1) :=
  C8_conf_change_gate c8wr c8wm rfl rfl rfl (by decide) (by decide) rfl

end tinykv
